import Mathlib

/-!
# Verification of the RTWBS checker (GuiseppeTool/RTWBS)

A shallow embedding of the core of the RTWBS repository:

* the DBM kernel used by the checker (the repository links against the external
  UDBM library whose sources are not part of the repository snapshot; those
  operations are modelled from the specification, §3 and §4.1),
* the timed-automaton model and the zone-graph construction
  (`src/src/timedautomaton.cpp`),
* the weak-semantics helpers and the RTWBS equivalence / simulation checkers
  (`src/src/core.cpp`),
* the system-level concurrent driver with its watchdog-based timeout
  (`src/src/core.cpp`, `System` overload).

Stateful C++ code is embedded by explicit state passing; all loops are
embedded as fuel-indexed structural recursions (a loop that terminates in the
C++ sense corresponds to a run whose fuel is not exhausted).  The cooperative
cancel flag is embedded as a boolean parameter threaded to exactly the places
where the source reads it.
-/

set_option maxRecDepth 100000
set_option maxHeartbeats 4000000

namespace RTWBS

/-! ## Bounds (raw DBM entries)

Modelled from the spec: a DBM cell packs a relation `≤`/`<` with an integer
value into a single "raw" word; `inf` is the absent bound.  `bnd true n`
stands for `< n` (strict), `bnd false n` for `≤ n` (weak). -/

inductive Bound where
  | inf : Bound
  | bnd (strict : Bool) (n : Int) : Bound
deriving DecidableEq

/-- Modelled from the spec: ordering of raw bounds; a bound is at most another
when it is at least as tight (`< n` is tighter than `≤ n`, everything is
tighter than `inf`). -/
def Bound.ble : Bound → Bound → Bool
  | _, .inf => true
  | .inf, .bnd _ _ => false
  | .bnd s m, .bnd t n => if m < n then true else if m = n then (s || !t) else false

/-- Modelled from the spec: addition of raw bounds (used by the all-pairs
tightening); the sum is strict when either summand is strict. -/
def Bound.badd : Bound → Bound → Bound
  | .inf, _ => .inf
  | _, .inf => .inf
  | .bnd s m, .bnd t n => .bnd (s || t) (m + n)

/-- Modelled from the spec: minimum (tighter) of two raw bounds. -/
def Bound.bmin (a b : Bound) : Bound := if a.ble b then a else b

/-- Modelled from the spec: a diagonal entry strictly below `≤ 0` signals an
inconsistent DBM. -/
def Bound.isNegDiag : Bound → Bool
  | .inf => false
  | .bnd s n => if n < 0 then true else if n = 0 then s else false

/-! ## DBM operations

A zone is stored exactly as in the source: a flat row-major vector of raw
bounds of length `dim * dim`; the empty vector is the "empty zone" that the
C++ code produces by `result.clear()`. -/

abbrev Zone := List Bound

/-- Read cell `(i, j)` of a `dim × dim` zone. -/
def zget (dim : Nat) (z : Zone) (i j : Nat) : Bound :=
  z.getD (i * dim + j) (Bound.bnd false 0)

/-- Write cell `(i, j)` of a `dim × dim` zone. -/
def zset (dim : Nat) (z : Zone) (i j : Nat) (b : Bound) : Zone :=
  z.set (i * dim + j) b

/-- Modelled from the spec: `close` — in-place canonicalisation by all-pairs
(Floyd–Warshall style) tightening. -/
def closeFW (dim : Nat) (z : Zone) : Zone :=
  (List.range dim).foldl (fun z k =>
    (List.range dim).foldl (fun z i =>
      (List.range dim).foldl (fun z j =>
        zset dim z i j ((zget dim z i j).bmin ((zget dim z i k).badd (zget dim z k j)))) z) z) z

/-- Modelled from the spec: `is_empty` — true iff some diagonal bound is
below `≤ 0`. -/
def dbm_isEmptyB (dim : Nat) (z : Zone) : Bool :=
  (List.range dim).any fun i => (zget dim z i i).isNegDiag

/-- Canonicalise and map an inconsistent zone to the empty vector, the way
callers of `dbm_close` in the source treat a failed close. -/
def closeOrEmpty (dim : Nat) (z : Zone) : Zone :=
  let c := closeFW dim z
  if dbm_isEmptyB dim c then [] else c

/-- Modelled from the spec: `init` — the all-clocks-equal-to-0 zone (every
cell `≤ 0`). -/
def dbm_init (dim : Nat) : Zone :=
  List.replicate (dim * dim) (Bound.bnd false 0)

/-- Modelled from the spec: `up` — future operator, lets every non-reference
clock grow to `+∞` (cells `(i, 0)` for `i ≥ 1` become `inf`). -/
def dbm_up (dim : Nat) (z : Zone) : Zone :=
  (List.range dim).foldl (fun z i => if i = 0 then z else zset dim z i 0 Bound.inf) z

/-- Modelled from the spec: `constrain1` — tighten cell `(i, j)` to the
minimum of its current bound and the given one; the kernel keeps the matrix
canonical, which is modelled by re-closing. -/
def constrain1 (dim : Nat) (z : Zone) (i j : Nat) (b : Bound) : Zone :=
  closeFW dim (zset dim z i j ((zget dim z i j).bmin b))

/-- Modelled from the spec: `reset(Z, c)` — set clock `x` to 0 by copying the
reference row and column (the `dbm_updateValue(dbm, dim, x, 0)` call of the
source); reads are from the original canonical matrix. -/
def dbm_updateValue (dim : Nat) (z : Zone) (x : Nat) : Zone :=
  (List.range dim).foldl (fun w j =>
    let w := zset dim w x j (zget dim z 0 j)
    zset dim w j x (zget dim z j 0)) z

/-- Result of the DBM relation test, mirroring `relation_t` of the kernel. -/
inductive DbmRel where
  | equal | subset | superset | different
deriving DecidableEq

/-- Modelled from the spec: `relation(A, B)` — cell-wise comparison of two
canonical DBMs of dimension `dim`. -/
def dbm_relation (dim : Nat) (a b : Zone) : DbmRel :=
  let sub := (List.range dim).all fun i => (List.range dim).all fun j =>
    (zget dim a i j).ble (zget dim b i j)
  let sup := (List.range dim).all fun i => (List.range dim).all fun j =>
    (zget dim b i j).ble (zget dim a i j)
  if sub && sup then .equal
  else if sub then .subset
  else if sup then .superset
  else .different

/-- Modelled from the spec: `extrapolate_max_bounds(Z, M)` — remove bounds
exceeding the per-clock maximum: a finite cell `(i, j)` with `i ≠ 0` whose
value exceeds `M i` becomes `inf`, and a finite cell whose value is below
`-M j` is relaxed to `< -M j`; the result is re-canonicalised. -/
def dbm_extrapolateMaxBounds (dim : Nat) (z : Zone) (max : List Int) : Zone :=
  let e := (List.range dim).foldl (fun w i =>
    (List.range dim).foldl (fun w j =>
      if i = j then w
      else
        match zget dim w i j with
        | .inf => w
        | .bnd s v =>
          if i ≠ 0 ∧ max.getD i 0 < v then zset dim w i j Bound.inf
          else if v < -(max.getD j 0) then zset dim w i j (Bound.bnd true (-(max.getD j 0)))
          else zset dim w i j (Bound.bnd s v)) w) z
  closeFW dim e

/-! ## Timed-automaton model (`include/rtwbs/timedautomaton.h`) -/

/-- `constraint_t` of the source: `x_i - x_j R v` with the raw bound packed in
`value`. -/
structure DbmConstraint where
  i : Nat
  j : Nat
  value : Bound
deriving DecidableEq

/-- `Transition` of the source. -/
structure Transition where
  from_location : Int
  to_location : Int
  action : String
  guards : List DbmConstraint
  resets : List Nat
  channel : String
  is_sender : Bool
  is_receiver : Bool
deriving DecidableEq

/-- `Transition::has_synchronization`: a transition is synchronised iff its
channel is non-empty. -/
def Transition.has_synchronization (t : Transition) : Bool :=
  decide (t.channel ≠ "")

/-- `Location` of the source. -/
structure Location where
  id : Int
  name : String
  invariants : List DbmConstraint
deriving DecidableEq

/-- The timed-automaton data relevant to the checker.  `clock_max_bounds`,
`clock_min_lower_bounds` and `timing_constants` are filled by the XML parsing
path and stay empty for automata built through the raw builder API. -/
structure TimedAutomaton where
  dimension : Nat
  locations : List Location
  transitions : List Transition
  clock_max_bounds : List Int
  clock_min_lower_bounds : List Int
  timing_constants : List Int
deriving DecidableEq

/-- Modelled from the spec: `get_max_timing_constant` (declared in the
repository's checker header, which is absent from the snapshot) — the maximum
integer constant appearing in guards/invariants, `0` when none was seen. -/
def TimedAutomaton.get_max_timing_constant (ta : TimedAutomaton) : Int :=
  ta.timing_constants.foldl max 0

/-- `TimedAutomaton::get_outgoing_transitions`: all transitions leaving the
given location, in declaration order. -/
def TimedAutomaton.get_outgoing_transitions (ta : TimedAutomaton) (location_id : Int) :
    List Transition :=
  ta.transitions.filter fun t => decide (t.from_location = location_id)

/-- `TimedAutomaton::apply_invariants`: tighten by the invariants of the first
location with the given id, then close; an inconsistent result is the empty
zone. -/
def TimedAutomaton.apply_invariants (ta : TimedAutomaton) (zone : Zone) (location_id : Int) :
    Zone :=
  let invs :=
    match ta.locations.find? (fun loc => decide (loc.id = location_id)) with
    | some loc => loc.invariants
    | none => []
  let result := invs.foldl (fun z inv => constrain1 ta.dimension z inv.i inv.j inv.value) zone
  closeOrEmpty ta.dimension result

/-- `TimedAutomaton::time_elapse(zone)`: size check, then `up`, then — when
per-clock maxima are available — max-bounds extrapolation with zero entries
replaced by the global maximal timing constant (default 100). -/
def TimedAutomaton.time_elapse (ta : TimedAutomaton) (zone : Zone) : Zone :=
  if zone.length ≠ ta.dimension * ta.dimension then []
  else
    let result := dbm_up ta.dimension zone
    if ta.clock_max_bounds ≠ [] ∧ ta.clock_max_bounds.length = ta.dimension then
      let gm := ta.get_max_timing_constant
      let global_max := if gm ≤ 0 then 100 else gm
      let U := (List.range ta.dimension).map fun i =>
        if i = 0 then ta.clock_max_bounds.getD 0 0
        else
          let u := ta.clock_max_bounds.getD i 0
          if u ≤ 0 then global_max else u
      dbm_extrapolateMaxBounds ta.dimension result U
    else result

/-- `TimedAutomaton::is_transition_enabled`: size and guard-index checks, then
tighten by the guards and test consistency. -/
def TimedAutomaton.is_transition_enabled (ta : TimedAutomaton) (zone : Zone) (t : Transition) :
    Bool :=
  if zone.length ≠ ta.dimension * ta.dimension then false
  else if t.guards.any (fun g => decide (ta.dimension ≤ g.i ∨ ta.dimension ≤ g.j)) then false
  else
    let tz := t.guards.foldl (fun z g => constrain1 ta.dimension z g.i g.j g.value) zone
    !(dbm_isEmptyB ta.dimension (closeFW ta.dimension tz))

/-- `TimedAutomaton::apply_transition`: guards, then resets, then close; any
failure produces the empty zone. -/
def TimedAutomaton.apply_transition (ta : TimedAutomaton) (zone : Zone) (t : Transition) :
    Zone :=
  if zone.length ≠ ta.dimension * ta.dimension then []
  else if t.guards.any (fun g => decide (ta.dimension ≤ g.i ∨ ta.dimension ≤ g.j)) then []
  else
    let r1 := t.guards.foldl (fun z g => constrain1 ta.dimension z g.i g.j g.value) zone
    if t.resets.any (fun c => decide (ta.dimension ≤ c)) then []
    else
      let r2 := t.resets.foldl (fun z c => dbm_updateValue ta.dimension z c) r1
      closeOrEmpty ta.dimension r2

/-! ## Zone graph (`src/src/timedautomaton.cpp`) -/

/-- `ZoneState` of the source (the cached hash is content-derived and
omitted). -/
structure ZoneState where
  location_id : Int
  zone : Zone
  dimension : Nat
deriving DecidableEq

instance : Inhabited ZoneState := ⟨⟨0, [], 0⟩⟩

/-- The zone-graph exploration state: the state arena, the adjacency lists and
the BFS waiting list.  The de-duplication map `state_map_` is kept consistent
with the arena in the source and is modelled by direct lookup in the arena. -/
structure ZoneGraph where
  states : List ZoneState
  zone_transitions : List (List Int)
  waiting : List Nat
deriving DecidableEq

/-- `TimedAutomaton::add_state`: reject a zone of the wrong size (`-1`),
de-duplicate via the state map, otherwise append the state, an empty adjacency
list, and enqueue the new id. -/
def add_state (ta : TimedAutomaton) (g : ZoneGraph) (location_id : Int) (zone : Zone) :
    ZoneGraph × Int :=
  if zone.length ≠ ta.dimension * ta.dimension then (g, -1)
  else
    let cand : ZoneState := ⟨location_id, zone, ta.dimension⟩
    match g.states.findIdx? (fun s => decide (s = cand)) with
    | some i => (g, (i : Int))
    | none =>
      let id := g.states.length
      ({ states := g.states ++ [cand],
         zone_transitions := g.zone_transitions ++ [[]],
         waiting := g.waiting ++ [id] }, (id : Int))

/-- `TimedAutomaton::explore_state`: apply the source location's invariants,
let time elapse, and for every enabled outgoing transition apply it, apply the
target invariants, and record the de-duplicated successor. -/
def explore_state (ta : TimedAutomaton) (g : ZoneGraph) (state_id : Nat) : ZoneGraph :=
  match g.states.get? state_id with
  | none => g
  | some s =>
    let zone_with_inv := ta.apply_invariants s.zone s.location_id
    if zone_with_inv.isEmpty then g
    else
      let elapsed := ta.time_elapse zone_with_inv
      if elapsed.isEmpty then g
      else
        (ta.get_outgoing_transitions s.location_id).foldl (fun g t =>
          if ta.is_transition_enabled elapsed t then
            let successor_zone := ta.apply_transition elapsed t
            if successor_zone.isEmpty then g
            else
              let final_zone := ta.apply_invariants successor_zone t.to_location
              if final_zone.isEmpty then g
              else
                let p := add_state ta g t.to_location final_zone
                let adj := (p.1.zone_transitions.getD state_id []) ++ [p.2]
                { p.1 with zone_transitions := p.1.zone_transitions.set state_id adj }
          else g) g

/-- The BFS loop of `construct_zone_graph`: run while the waiting list is
non-empty and fewer than `max_states` states are stored. -/
def zg_loop (ta : TimedAutomaton) (max_states : Nat) : Nat → ZoneGraph → ZoneGraph
  | 0, g => g
  | fuel + 1, g =>
    match g.waiting with
    | [] => g
    | id :: rest =>
      if max_states ≤ g.states.length then g
      else zg_loop ta max_states fuel (explore_state ta { g with waiting := rest } id)

/-- `TimedAutomaton::construct_zone_graph(initial, Z0, MAX_STATES, force)`
after clearing: seed with the initial state, then BFS. -/
def construct_zone_graph (ta : TimedAutomaton) (initial_location : Int) (initial_zone : Zone)
    (max_states fuel : Nat) : ZoneGraph :=
  let p := add_state ta ⟨[], [], []⟩ initial_location initial_zone
  zg_loop ta max_states fuel p.1

/-- The default `construct_zone_graph()` used by the checker: initial location
0, the `dbm_init` zero zone, and the configured hard state limit 100000. -/
def build_graph (ta : TimedAutomaton) (fuel : Nat) : ZoneGraph :=
  construct_zone_graph ta 0 (dbm_init ta.dimension) 100000 fuel

/-! ## Weak semantics helpers (`src/src/core.cpp`, anonymous namespace)

The C++ helpers work on `const ZoneState*`; a pointer is either a pointer into
the arena of a zone graph (identified by its index) or an outside pointer to a
caller-owned value.  Pointer identity — which the visited sets and the
de-duplication use — is `SRef` equality: two outside pointers to equal values
and an outside pointer to a value equal to an arena entry are still distinct
pointers, which the `ext`/`arena` separation preserves for the call patterns
of the checker (the checker passes each outside state once). -/

/-- A `const ZoneState*`: either an arena entry of the owning automaton's zone
graph or an outside (caller-owned) state. -/
inductive SRef where
  | ext (s : ZoneState)
  | arena (i : Nat)
deriving DecidableEq

/-- A timed automaton together with its constructed zone graph. -/
structure TAG where
  ta : TimedAutomaton
  g : ZoneGraph
deriving DecidableEq

/-- Dereference a zone-state pointer. -/
def TAG.deref (tg : TAG) : SRef → ZoneState
  | .ext s => s
  | .arena i => tg.g.states.getD i default

/-- `TimedAutomaton::find_zone_state`: hash lookup of `(location, zone)` in the
arena. -/
def find_zone_state (tg : TAG) (location_id : Int) (zone : Zone) : Option Nat :=
  tg.g.states.findIdx? fun s =>
    decide (s = (⟨location_id, zone, tg.ta.dimension⟩ : ZoneState))

/-- Modelled from the spec: `get_state_id(ptr)` (declared in the repository's
header, absent from the snapshot) — the arena index of an arena pointer, not
found (`-1`) for an outside pointer. -/
def TAG.get_state_id (_tg : TAG) : SRef → Int
  | .arena i => (i : Int)
  | .ext _ => -1

/-- `is_tau`: internal moves are the unsynchronised transitions labelled with
the configured tau action (default `"tau"`) or the empty label. -/
def is_tau (t : Transition) : Bool :=
  !t.has_synchronization && (decide (t.action = "tau") || decide (t.action = ""))

/-- The edge pipeline shared by `tau_closure_raw` and
`weak_observable_successors_raw`: apply the source invariants, elapse, re-apply
the source invariants, fire the transition, apply the target invariants, and
resolve the result in the arena. -/
def weak_edge_target (tg : TAG) (z : ZoneState) (tr : Transition) : Option Nat :=
  let zInv := tg.ta.apply_invariants z.zone z.location_id
  if zInv.isEmpty then none
  else
    let zUp := tg.ta.time_elapse zInv
    if zUp.isEmpty then none
    else
      let ready := tg.ta.apply_invariants zUp z.location_id
      if ready.isEmpty then none
      else
        let post := tg.ta.apply_transition ready tr
        if post.isEmpty then none
        else
          let post2 := tg.ta.apply_invariants post tr.to_location
          if post2.isEmpty then none
          else find_zone_state tg tr.to_location post2

/-- The BFS loop of `tau_closure_raw`; the cooperative-cancel check sits at
the head of each iteration, exactly where the source reads the flag. -/
def tau_loop (cancel : Bool) (tg : TAG) :
    Nat → List SRef → List SRef → List SRef → List SRef
  | 0, _, _, closure => closure
  | fuel + 1, q, visited, closure =>
    match q with
    | [] => closure
    | z :: rest =>
      if cancel then closure
      else
        let closure := closure ++ [z]
        let zs := tg.deref z
        let qv := (tg.ta.get_outgoing_transitions zs.location_id).foldl
          (fun (acc : List SRef × List SRef) tr =>
            if is_tau tr then
              match weak_edge_target tg zs tr with
              | some idx =>
                if SRef.arena idx ∈ acc.2 then acc
                else (acc.1 ++ [SRef.arena idx], acc.2 ++ [SRef.arena idx])
              | none => acc
            else acc) (rest, visited)
        tau_loop cancel tg fuel qv.1 qv.2 closure

/-- `tau_closure_raw`: all states reachable from `start` through internal
moves (including `start`). -/
def tau_closure_raw (cancel : Bool) (tg : TAG) (start : SRef) (fuel : Nat) : List SRef :=
  tau_loop cancel tg fuel [start] [start] []

/-- De-duplication of the weak-successor list.  The source pours the list
through an `unordered_set`, whose iteration order is unspecified; keeping the
first occurrence fixes one order without changing membership. -/
def dedupGo (seen : List SRef) : List SRef → List SRef
  | [] => []
  | x :: xs => if x ∈ seen then dedupGo seen xs else x :: dedupGo (x :: seen) xs

/-- `weak_observable_successors_raw`: the `τ*·a·τ*` successors of `start` for
the given observable action. -/
def weak_observable_successors_raw (cancel : Bool) (tg : TAG) (start : SRef)
    (action : String) (fuel : Nat) : List SRef :=
  let pre := tau_closure_raw cancel tg start fuel
  let result := pre.foldl (fun res z =>
    let zs := tg.deref z
    (tg.ta.get_outgoing_transitions zs.location_id).foldl (fun res tr =>
      if decide (tr.action = action) then
        match weak_edge_target tg zs tr with
        | some mid => res ++ tau_closure_raw cancel tg (SRef.arena mid) fuel
        | none => res
      else res) res) []
  dedupGo [] result

/-! ## The RTWBS checker (`src/src/core.cpp`)

The checker's per-call state (`relation_`, `worklist_`, `reverse_deps_`,
`weak_succ_cache_`) is threaded explicitly; every top-level check starts from
the cleared state, as `clear_optimisation_state()` guarantees in the source.
The weak-successor cache is a single map shared by both automata of a check,
keyed — as `WeakKey{start->location_id, action}` is in the source — by the
location id of the start state and the action. -/

/-- `PairKey`: a pair of zone-state ids. -/
structure PairKey where
  r : Int
  a : Int
deriving DecidableEq

abbrev Cache := List ((Int × String) × List SRef)

abbrev RevDeps := List (PairKey × List PairKey)

/-- Association-list lookup (the hash maps of the checker). -/
def assoc_get {α β : Type} [DecidableEq α] : List (α × β) → α → Option β
  | [], _ => none
  | (k, v) :: rest, key => if k = key then some v else assoc_get rest key

/-- `reverse_deps_[k].push_back(v)`. -/
def assoc_push (m : RevDeps) (k v : PairKey) : RevDeps :=
  match m with
  | [] => [(k, [v])]
  | (k', vs) :: rest => if k' = k then (k', vs ++ [v]) :: rest else (k', vs) :: assoc_push rest k v

/-- `reverse_deps_.erase(k)`. -/
def assoc_erase (m : RevDeps) (k : PairKey) : RevDeps :=
  m.filter fun e => decide (e.1 ≠ k)

/-- `relation_.erase(pk)` (the relation is a set, duplicates never arise). -/
def rel_erase (l : List PairKey) (p : PairKey) : List PairKey :=
  l.filter fun q => decide (q ≠ p)

/-- `RTWBSChecker::weak_observable_successors_cached`: memoised by
`(start->location_id, action)`. -/
def weak_cached (cancel : Bool) (tg : TAG) (start : SRef) (action : String)
    (cache : Cache) (fuel : Nat) : List SRef × Cache :=
  let key : Int × String := ((tg.deref start).location_id, action)
  match assoc_get cache key with
  | some v => (v, cache)
  | none =>
    let v := weak_observable_successors_raw cancel tg start action fuel
    (v, cache ++ [(key, v)])

/-- `timing_ok` (anonymous namespace of `core.cpp`): build both enabling zones
by invariants / elapse / re-applied invariants / guards / close, then apply
the asymmetric timing rule. -/
def timing_ok (rta : TimedAutomaton) (rz : ZoneState) (rt : Transition)
    (ata : TimedAutomaton) (az : ZoneState) (atr : Transition) : Bool :=
  let rInv := rta.apply_invariants rz.zone rz.location_id
  if rInv.isEmpty then false
  else
    let rUp := rta.time_elapse rInv
    if rUp.isEmpty then false
    else
      let rReady := rta.apply_invariants rUp rz.location_id
      if rReady.isEmpty then false
      else
        let rG := closeFW rta.dimension
          (rt.guards.foldl (fun z g => constrain1 rta.dimension z g.i g.j g.value) rReady)
        let guards_ok_in_r := !(dbm_isEmptyB rta.dimension rG)
        let aInv := ata.apply_invariants az.zone az.location_id
        if aInv.isEmpty then false
        else
          let aUp := ata.time_elapse aInv
          if aUp.isEmpty then false
          else
            let aReady := ata.apply_invariants aUp az.location_id
            if aReady.isEmpty then false
            else
              let aG := closeFW ata.dimension
                (atr.guards.foldl (fun z g => constrain1 ata.dimension z g.i g.j g.value) aReady)
              let guards_ok_in_a := !(dbm_isEmptyB ata.dimension aG)
              if guards_ok_in_r && guards_ok_in_a then
                let rel := dbm_relation rta.dimension rG aG
                let r_subset_a := rel = DbmRel.subset ∨ rel = DbmRel.equal
                let a_subset_r := rel = DbmRel.superset ∨ rel = DbmRel.equal
                if !rt.has_synchronization && !atr.has_synchronization then decide r_subset_a
                else if rt.has_synchronization && atr.has_synchronization &&
                    decide (rt.channel = atr.channel) then
                  if rt.is_sender && atr.is_sender then decide r_subset_a
                  else if rt.is_receiver && atr.is_receiver then decide a_subset_r
                  else false
                else false
              else if !guards_ok_in_r && !guards_ok_in_a then true
              else false

/-- The forward successor-pair search of `validate_pair`: refined successors
in order, abstract candidates bucketed by location, first pair found in the
relation. -/
def find_supporting_f (rtg atg : TAG) (rel : List PairKey) (rSuccs aSuccs : List SRef) :
    Option PairKey :=
  rSuccs.findSome? fun rs =>
    (aSuccs.filter fun asucc =>
        decide ((atg.deref asucc).location_id = (rtg.deref rs).location_id)).findSome?
      fun asucc =>
        let cand : PairKey := ⟨rtg.get_state_id rs, atg.get_state_id asucc⟩
        if cand ∈ rel then some cand else none

/-- The backward successor-pair search: abstract successors in order, refined
candidates bucketed by location; the pair keys keep the refined-first
orientation. -/
def find_supporting_b (rtg atg : TAG) (rel : List PairKey) (rSuccs aSuccs : List SRef) :
    Option PairKey :=
  aSuccs.findSome? fun asucc =>
    (rSuccs.filter fun rs =>
        decide ((rtg.deref rs).location_id = (atg.deref asucc).location_id)).findSome?
      fun rs =>
        let cand : PairKey := ⟨rtg.get_state_id rs, atg.get_state_id asucc⟩
        if cand ∈ rel then some cand else none

/-- The inner abstract-candidate loop of the forward direction of
`validate_pair`: tau filter, action match, cheap synchronisation precheck,
weak enabledness, timing, successor pair. -/
def match_abs_f (cancel : Bool) (rtg atg : TAG) (pk : PairKey) (rel : List PairKey)
    (rt : Transition) (rSuccs : List SRef) (wfuel : Nat) :
    List Transition → Cache → Bool × Cache × List (PairKey × PairKey)
  | [], cache => (false, cache, [])
  | atr :: rest, cache =>
    if is_tau atr then match_abs_f cancel rtg atg pk rel rt rSuccs wfuel rest cache
    else if rt.action ≠ atr.action then match_abs_f cancel rtg atg pk rel rt rSuccs wfuel rest cache
    else if rt.has_synchronization ≠ atr.has_synchronization then
      match_abs_f cancel rtg atg pk rel rt rSuccs wfuel rest cache
    else if rt.has_synchronization ∧
        (rt.channel ≠ atr.channel ∨ rt.is_sender ≠ atr.is_sender ∨
         rt.is_receiver ≠ atr.is_receiver) then
      match_abs_f cancel rtg atg pk rel rt rSuccs wfuel rest cache
    else
      let ac := weak_cached cancel atg (SRef.arena pk.a.toNat) atr.action cache wfuel
      if ac.1.isEmpty then match_abs_f cancel rtg atg pk rel rt rSuccs wfuel rest ac.2
      else if !timing_ok rtg.ta (rtg.deref (SRef.arena pk.r.toNat)) rt
          atg.ta (atg.deref (SRef.arena pk.a.toNat)) atr then
        match_abs_f cancel rtg atg pk rel rt rSuccs wfuel rest ac.2
      else
        match find_supporting_f rtg atg rel rSuccs ac.1 with
        | some supp => (true, ac.2, [(supp, pk)])
        | none => match_abs_f cancel rtg atg pk rel rt rSuccs wfuel rest ac.2

/-- The forward direction of `validate_pair`: every enabled non-tau refined
move must be matched. -/
def forward_go (cancel : Bool) (rtg atg : TAG) (pk : PairKey) (rel : List PairKey)
    (wfuel : Nat) :
    List Transition → Cache → List (PairKey × PairKey) →
      Bool × Cache × List (PairKey × PairKey)
  | [], cache, deps => (true, cache, deps)
  | rt :: rest, cache, deps =>
    if is_tau rt then forward_go cancel rtg atg pk rel wfuel rest cache deps
    else
      let rc := weak_cached cancel rtg (SRef.arena pk.r.toNat) rt.action cache wfuel
      if rc.1.isEmpty then forward_go cancel rtg atg pk rel wfuel rest rc.2 deps
      else
        let aOut := atg.ta.get_outgoing_transitions
          ((atg.deref (SRef.arena pk.a.toNat)).location_id)
        match match_abs_f cancel rtg atg pk rel rt rc.1 wfuel aOut rc.2 with
        | (true, cache, d) => forward_go cancel rtg atg pk rel wfuel rest cache (deps ++ d)
        | (false, cache, d) => (false, cache, deps ++ d)

/-- The inner refined-candidate loop of the backward direction of
`validate_pair` (roles mirrored, timing arguments swapped). -/
def match_ref_b (cancel : Bool) (rtg atg : TAG) (pk : PairKey) (rel : List PairKey)
    (atr : Transition) (aSuccs : List SRef) (wfuel : Nat) :
    List Transition → Cache → Bool × Cache × List (PairKey × PairKey)
  | [], cache => (false, cache, [])
  | rt :: rest, cache =>
    if is_tau rt then match_ref_b cancel rtg atg pk rel atr aSuccs wfuel rest cache
    else if atr.action ≠ rt.action then match_ref_b cancel rtg atg pk rel atr aSuccs wfuel rest cache
    else if atr.has_synchronization ≠ rt.has_synchronization then
      match_ref_b cancel rtg atg pk rel atr aSuccs wfuel rest cache
    else if atr.has_synchronization ∧
        (atr.channel ≠ rt.channel ∨ atr.is_sender ≠ rt.is_sender ∨
         atr.is_receiver ≠ rt.is_receiver) then
      match_ref_b cancel rtg atg pk rel atr aSuccs wfuel rest cache
    else
      let rc := weak_cached cancel rtg (SRef.arena pk.r.toNat) rt.action cache wfuel
      if rc.1.isEmpty then match_ref_b cancel rtg atg pk rel atr aSuccs wfuel rest rc.2
      else if !timing_ok atg.ta (atg.deref (SRef.arena pk.a.toNat)) atr
          rtg.ta (rtg.deref (SRef.arena pk.r.toNat)) rt then
        match_ref_b cancel rtg atg pk rel atr aSuccs wfuel rest rc.2
      else
        match find_supporting_b rtg atg rel rc.1 aSuccs with
        | some supp => (true, rc.2, [(supp, pk)])
        | none => match_ref_b cancel rtg atg pk rel atr aSuccs wfuel rest rc.2

/-- The backward direction of `validate_pair`: every enabled non-tau abstract
move must be matched by a refined one. -/
def backward_go (cancel : Bool) (rtg atg : TAG) (pk : PairKey) (rel : List PairKey)
    (wfuel : Nat) :
    List Transition → Cache → List (PairKey × PairKey) →
      Bool × Cache × List (PairKey × PairKey)
  | [], cache, deps => (true, cache, deps)
  | atr :: rest, cache, deps =>
    if is_tau atr then backward_go cancel rtg atg pk rel wfuel rest cache deps
    else
      let ac := weak_cached cancel atg (SRef.arena pk.a.toNat) atr.action cache wfuel
      if ac.1.isEmpty then backward_go cancel rtg atg pk rel wfuel rest ac.2 deps
      else
        let rOut := rtg.ta.get_outgoing_transitions
          ((rtg.deref (SRef.arena pk.r.toNat)).location_id)
        match match_ref_b cancel rtg atg pk rel atr ac.1 wfuel rOut ac.2 with
        | (true, cache, d) => backward_go cancel rtg atg pk rel wfuel rest cache (deps ++ d)
        | (false, cache, d) => (false, cache, deps ++ d)

/-- `validate_pair` of `check_rtwbs_equivalence`: the forward direction, then —
when it matched — the backward direction; reverse-dependency updates recorded
during the run are returned for the caller to merge. -/
def validate_pair (cancel : Bool) (rtg atg : TAG) (pk : PairKey) (rel : List PairKey)
    (wfuel : Nat) (cache : Cache) : Bool × Cache × List (PairKey × PairKey) :=
  let rOut := rtg.ta.get_outgoing_transitions ((rtg.deref (SRef.arena pk.r.toNat)).location_id)
  match forward_go cancel rtg atg pk rel wfuel rOut cache [] with
  | (false, c, d) => (false, c, d)
  | (true, c, d) =>
    let aOut := atg.ta.get_outgoing_transitions ((atg.deref (SRef.arena pk.a.toNat)).location_id)
    backward_go cancel rtg atg pk rel wfuel aOut c d

/-- The seeding loop of `check_rtwbs_equivalence`: every pair of states with
the same location id whose refined zone is a subset of (or equal to) the
abstract zone, in nested iteration order. -/
def seed_relation (rg ag : ZoneGraph) : List PairKey :=
  (List.range rg.states.length).foldl (fun acc i =>
    (List.range ag.states.length).foldl (fun acc j =>
      let rs := rg.states.getD i default
      let as_ := ag.states.getD j default
      if rs.location_id = as_.location_id then
        let rel := dbm_relation rs.dimension rs.zone as_.zone
        if rel = DbmRel.subset ∨ rel = DbmRel.equal then
          let pk : PairKey := ⟨(i : Int), (j : Int)⟩
          if pk ∈ acc then acc else acc ++ [pk]
        else acc
      else acc) acc) []

/-- The mutable state of one equivalence check. -/
structure CheckerSt where
  relation : List PairKey
  worklist : List PairKey
  reverse_deps : RevDeps
  cache : Cache
deriving DecidableEq

/-- The serial worklist loop of `check_rtwbs_equivalence`: pop, cancel check,
re-validate, on failure remove the pair and re-enqueue its recorded parents.
The boolean is true when the loop reached its exit condition within the
fuel. -/
def run_serial (cancel : Bool) (rtg atg : TAG) (wfuel : Nat) :
    Nat → CheckerSt → CheckerSt × Bool
  | 0, st => (st, st.worklist.isEmpty)
  | fuel + 1, st =>
    match st.worklist with
    | [] => (st, true)
    | current :: rest =>
      if cancel then ({ st with relation := [] }, true)
      else
        let st1 : CheckerSt := { st with worklist := rest }
        if current ∉ st1.relation then run_serial cancel rtg atg wfuel fuel st1
        else
          let vr := validate_pair cancel rtg atg current st1.relation wfuel st1.cache
          let rdeps := vr.2.2.foldl (fun m sp => assoc_push m sp.1 sp.2) st1.reverse_deps
          if vr.1 then
            let st2 : CheckerSt := { st1 with cache := vr.2.1, reverse_deps := rdeps }
            if st2.relation = [] then (st2, true) else run_serial cancel rtg atg wfuel fuel st2
          else
            let rel' := rel_erase st1.relation current
            let parents := (assoc_get rdeps current).getD []
            let st2 : CheckerSt :=
              { relation := rel',
                worklist := st1.worklist ++ parents.filter (fun p => decide (p ∈ rel')),
                reverse_deps := assoc_erase rdeps current,
                cache := vr.2.1 }
            if st2.relation = [] then (st2, true) else run_serial cancel rtg atg wfuel fuel st2

/-- One batch of the OpenMP-style loop: validate each batch member against the
relation as it stood when the batch was formed (no removals happen during the
parallel region), collecting removals and reverse-dependency updates; the
parallel threads are linearised in batch order. -/
def omp_batch (cancel : Bool) (rtg atg : TAG) (wfuel : Nat) (snapshot : List PairKey) :
    List PairKey → List PairKey → List (PairKey × PairKey) → Cache →
      List PairKey × List (PairKey × PairKey) × Cache
  | [], rem, upd, cache => (rem, upd, cache)
  | current :: rest, rem, upd, cache =>
    if current ∉ snapshot then omp_batch cancel rtg atg wfuel snapshot rest rem upd cache
    else
      let vr := validate_pair cancel rtg atg current snapshot wfuel cache
      omp_batch cancel rtg atg wfuel snapshot rest
        (if vr.1 then rem else rem ++ [current]) (upd ++ vr.2.2) vr.2.1

/-- Apply the collected removals: erase from the relation, re-enqueue the
recorded parents still in the relation, drop the reverse-dependency bucket. -/
def omp_apply_removals (st : CheckerSt) : List PairKey → CheckerSt
  | [] => st
  | pk :: rest =>
    let rel' := rel_erase st.relation pk
    let parents := (assoc_get st.reverse_deps pk).getD []
    omp_apply_removals
      { relation := rel',
        worklist := st.worklist ++ parents.filter (fun p => decide (p ∈ rel')),
        reverse_deps := assoc_erase st.reverse_deps pk,
        cache := st.cache } rest

/-- The OpenMP-style batched worklist loop of `check_rtwbs_equivalence`
(`use_omp = true`): dequeue a batch of size `max 1 (|W| / (2·workers))`,
validate it against the relation snapshot, then merge the updates and apply
the removals.  The loop itself never consults the cancel flag. -/
def run_omp (cancel : Bool) (rtg atg : TAG) (wfuel nthreads : Nat) :
    Nat → CheckerSt → CheckerSt × Bool
  | 0, st => (st, st.worklist.isEmpty)
  | fuel + 1, st =>
    if st.worklist.isEmpty then (st, true)
    else
      let batch_size := Nat.max 1 (st.worklist.length / (2 * nthreads))
      let batch := st.worklist.take batch_size
      let rest := st.worklist.drop batch_size
      let br := omp_batch cancel rtg atg wfuel st.relation batch [] [] st.cache
      let rdeps := br.2.1.foldl (fun m sp => assoc_push m sp.1 sp.2) st.reverse_deps
      let st1 : CheckerSt :=
        { st with worklist := rest, reverse_deps := rdeps, cache := br.2.2 }
      run_omp cancel rtg atg wfuel nthreads fuel (omp_apply_removals st1 br.1)

/-- `RTWBSChecker::check_rtwbs_equivalence(refined, abstract, use_omp)`:
clear the per-call state, build both zone graphs, seed, run the worklist loop
to its fixed point, and answer whether the initial pair `(0, 0)` survived.
`none` marks a run whose loop fuel was exhausted before the loop exited. -/
def check_rtwbs_equivalence (cancel : Bool) (refined abstract : TimedAutomaton)
    (use_omp : Bool) (nthreads gfuel wfuel tfuel : Nat) : Option Bool :=
  if cancel then some false
  else
    let rg := build_graph refined gfuel
    let ag := build_graph abstract gfuel
    if rg.states.isEmpty || ag.states.isEmpty then some false
    else
      let rtg : TAG := ⟨refined, rg⟩
      let atg : TAG := ⟨abstract, ag⟩
      let seeds := seed_relation rg ag
      if seeds.isEmpty then some false
      else
        let st0 : CheckerSt := ⟨seeds, seeds, [], []⟩
        let rr :=
          if use_omp then run_omp cancel rtg atg wfuel nthreads tfuel st0
          else run_serial cancel rtg atg wfuel tfuel st0
        if rr.2 then some (decide ((⟨0, 0⟩ : PairKey) ∈ rr.1.relation)) else none

/-! ## The simulation-only variant (`RTWBSChecker::check_rtwbs_simulation`)

Its validation is forward-only, without the synchronisation precheck and
without bucketing the abstract successors by location; its seeding block is
guarded by a constant-false condition. -/

/-- The successor-pair search of the simulation validate: plain double loop
with a location check. -/
def find_supporting_sim (rtg atg : TAG) (rel : List PairKey) (rSuccs aSuccs : List SRef) :
    Option PairKey :=
  rSuccs.findSome? fun rs =>
    aSuccs.findSome? fun asucc =>
      if (rtg.deref rs).location_id = (atg.deref asucc).location_id then
        let cand : PairKey := ⟨rtg.get_state_id rs, atg.get_state_id asucc⟩
        if cand ∈ rel then some cand else none
      else none

/-- The inner abstract-candidate loop of the simulation validate. -/
def match_abs_sim (cancel : Bool) (rtg atg : TAG) (pk : PairKey) (rel : List PairKey)
    (rt : Transition) (rSuccs : List SRef) (wfuel : Nat) :
    List Transition → Cache → Bool × Cache × List (PairKey × PairKey)
  | [], cache => (false, cache, [])
  | atr :: rest, cache =>
    if is_tau atr then match_abs_sim cancel rtg atg pk rel rt rSuccs wfuel rest cache
    else if rt.action ≠ atr.action then
      match_abs_sim cancel rtg atg pk rel rt rSuccs wfuel rest cache
    else
      let ac := weak_cached cancel atg (SRef.arena pk.a.toNat) atr.action cache wfuel
      if ac.1.isEmpty then match_abs_sim cancel rtg atg pk rel rt rSuccs wfuel rest ac.2
      else if !timing_ok rtg.ta (rtg.deref (SRef.arena pk.r.toNat)) rt
          atg.ta (atg.deref (SRef.arena pk.a.toNat)) atr then
        match_abs_sim cancel rtg atg pk rel rt rSuccs wfuel rest ac.2
      else
        match find_supporting_sim rtg atg rel rSuccs ac.1 with
        | some supp => (true, ac.2, [(supp, pk)])
        | none => match_abs_sim cancel rtg atg pk rel rt rSuccs wfuel rest ac.2

/-- The (forward-only) `validate_pair` of `check_rtwbs_simulation`. -/
def validate_sim_go (cancel : Bool) (rtg atg : TAG) (pk : PairKey) (rel : List PairKey)
    (wfuel : Nat) :
    List Transition → Cache → List (PairKey × PairKey) →
      Bool × Cache × List (PairKey × PairKey)
  | [], cache, deps => (true, cache, deps)
  | rt :: rest, cache, deps =>
    if is_tau rt then validate_sim_go cancel rtg atg pk rel wfuel rest cache deps
    else
      let rc := weak_cached cancel rtg (SRef.arena pk.r.toNat) rt.action cache wfuel
      if rc.1.isEmpty then validate_sim_go cancel rtg atg pk rel wfuel rest rc.2 deps
      else
        let aOut := atg.ta.get_outgoing_transitions
          ((atg.deref (SRef.arena pk.a.toNat)).location_id)
        match match_abs_sim cancel rtg atg pk rel rt rc.1 wfuel aOut rc.2 with
        | (true, cache, d) => validate_sim_go cancel rtg atg pk rel wfuel rest cache (deps ++ d)
        | (false, cache, d) => (false, cache, deps ++ d)

/-- The worklist loop of `check_rtwbs_simulation` (same shape as the serial
equivalence loop). -/
def run_sim (cancel : Bool) (rtg atg : TAG) (wfuel : Nat) :
    Nat → CheckerSt → CheckerSt × Bool
  | 0, st => (st, st.worklist.isEmpty)
  | fuel + 1, st =>
    match st.worklist with
    | [] => (st, true)
    | current :: rest =>
      if cancel then ({ st with relation := [] }, true)
      else
        let st1 : CheckerSt := { st with worklist := rest }
        if current ∉ st1.relation then run_sim cancel rtg atg wfuel fuel st1
        else
          let rOut := rtg.ta.get_outgoing_transitions
            ((rtg.deref (SRef.arena current.r.toNat)).location_id)
          let vr := validate_sim_go cancel rtg atg current st1.relation wfuel rOut st1.cache []
          let rdeps := vr.2.2.foldl (fun m sp => assoc_push m sp.1 sp.2) st1.reverse_deps
          if vr.1 then
            let st2 : CheckerSt := { st1 with cache := vr.2.1, reverse_deps := rdeps }
            if st2.relation = [] then (st2, true) else run_sim cancel rtg atg wfuel fuel st2
          else
            let rel' := rel_erase st1.relation current
            let parents := (assoc_get rdeps current).getD []
            let st2 : CheckerSt :=
              { relation := rel',
                worklist := st1.worklist ++ parents.filter (fun p => decide (p ∈ rel')),
                reverse_deps := assoc_erase rdeps current,
                cache := vr.2.1 }
            if st2.relation = [] then (st2, true) else run_sim cancel rtg atg wfuel fuel st2

/-- The seeding block of `check_rtwbs_simulation` — the block the source
guards with `if(false)`; it would key the pairs by location ids. -/
def sim_seed_block (rg ag : ZoneGraph) : List PairKey :=
  (List.range rg.states.length).foldl (fun acc i =>
    (List.range ag.states.length).foldl (fun acc j =>
      let rs := rg.states.getD i default
      let as_ := ag.states.getD j default
      if rs.location_id = as_.location_id then
        let rel := dbm_relation rs.dimension rs.zone as_.zone
        if rel = DbmRel.subset ∨ rel = DbmRel.equal then
          let pk : PairKey := ⟨rs.location_id, as_.location_id⟩
          if pk ∈ acc then acc else acc ++ [pk]
        else acc
      else acc) acc) []

/-- `RTWBSChecker::check_rtwbs_simulation(refined, abstract)`: the relation-
seeding block is under a constant-false guard, so the relation reaching the
emptiness check is always empty. -/
def check_rtwbs_simulation (cancel : Bool) (refined abstract : TimedAutomaton)
    (gfuel wfuel tfuel : Nat) : Bool :=
  if cancel then false
  else
    let rg := build_graph refined gfuel
    let ag := build_graph abstract gfuel
    if rg.states.isEmpty || ag.states.isEmpty then false
    else
      let rtg : TAG := ⟨refined, rg⟩
      let atg : TAG := ⟨abstract, ag⟩
      let seeds : List PairKey := if (false : Bool) then sim_seed_block rg ag else []
      if seeds.isEmpty then false
      else
        let st0 : CheckerSt := ⟨seeds, seeds, [], []⟩
        let rr := run_sim cancel rtg atg wfuel tfuel st0
        !rr.1.relation.isEmpty

/-! ## System-level driver (`core.cpp`, `System` overload)

Real time enters only through the watchdog; whether the watchdog's wait times
out before the work completes is abstracted into the boolean oracle
`expires`.  With `timeout_ms < 0` no watchdog is installed and the flag can
never be set; with `timeout_ms = 0` the watchdog sets the flag unconditionally
before it returns, and the driver joins the watchdog before it tests the flag,
so the flag is set at test time on every schedule; with `timeout_ms > 0` the
flag is set iff the timed wait ran out before completion (`expires`). -/

inductive RunningMode where
  | SERIAL | THREAD_POOL | OPENMP
deriving DecidableEq

deriving instance DecidableEq for Except

/-- The per-pair loop of `check_rtwbs_equivalence__`: cancel check between
pairs, conjunction of the per-pair results. -/
def sys_pairs_go (cancel use_omp : Bool) (nthreads gfuel wfuel tfuel : Nat) :
    List (TimedAutomaton × TimedAutomaton) → Bool → Option Bool
  | [], all => some all
  | (r, a) :: rest, all =>
    if cancel then some false
    else
      match check_rtwbs_equivalence cancel r a use_omp nthreads gfuel wfuel tfuel with
      | none => none
      | some ok => sys_pairs_go cancel use_omp nthreads gfuel wfuel tfuel rest (all && ok)

/-- `RTWBSChecker::check_rtwbs_equivalence__(sys_r, sys_a, use_openmp)`. -/
def check_rtwbs_equivalence_pairs (cancel : Bool) (sr sa : List TimedAutomaton)
    (use_omp : Bool) (nthreads gfuel wfuel tfuel : Nat) : Option Bool :=
  sys_pairs_go cancel use_omp nthreads gfuel wfuel tfuel (sr.zip sa) true

/-- The aggregation loop over the futures of the thread-pool mode. -/
def pool_agg (cancel : Bool) : List (Option Bool) → Bool → Option Bool
  | [], all => some all
  | ob :: rest, all =>
    if cancel then some false
    else
      match ob with
      | none => none
      | some b => pool_agg cancel rest (all && b)

/-- The THREAD-POOL branch of `run_work`: sequential pre-construction of the
zone graphs (with a cancel check per pair), then one task per automaton pair,
each task running on a fresh checker instance; the graphs are deterministic,
so the pre-construction contributes no observable state here. -/
def run_pool (cancel : Bool) (sr sa : List TimedAutomaton)
    (nthreads gfuel wfuel tfuel : Nat) : Option Bool :=
  if cancel ∧ ¬sr.isEmpty then some false
  else
    let results := (sr.zip sa).map fun p =>
      check_rtwbs_equivalence cancel p.1 p.2 false nthreads gfuel wfuel tfuel
    pool_agg cancel results true

/-- `RTWBSChecker::check_rtwbs_equivalence(System, System, mode, workers,
timeout_ms)`: size check, watchdog installation, `run_work` by mode, watchdog
join, and the timeout test that raises the timeout error.  `expires` is the
oracle for "the watchdog's timed wait ran out before completion"; the outer
`Option` marks fuel exhaustion of an inner loop. -/
def check_rtwbs_equivalence_system (sr sa : List TimedAutomaton) (mode : RunningMode)
    (nthreads gfuel wfuel tfuel : Nat) (timeout_ms : Int) (expires : Bool) :
    Option (Except Unit Bool) :=
  if sr.length ≠ sa.length then some (Except.ok false)
  else
    let cancel : Bool :=
      if timeout_ms < 0 then false else if timeout_ms = 0 then true else expires
    let res :=
      match mode with
      | RunningMode.SERIAL =>
        check_rtwbs_equivalence_pairs cancel sr sa false nthreads gfuel wfuel tfuel
      | RunningMode.OPENMP =>
        check_rtwbs_equivalence_pairs cancel sr sa true nthreads gfuel wfuel tfuel
      | RunningMode.THREAD_POOL => run_pool cancel sr sa nthreads gfuel wfuel tfuel
    match res with
    | none => none
    | some b => some (if cancel then Except.error () else Except.ok b)

/-! ## Spec-side (claim-side) definitions

These follow the words of the specification / the claims, to be compared with
the definitions translated from the source. -/

/-- The enabling zone as claim C1 words it: `up(apply_invariants(Z))` — the
plain future operator — with the location invariants re-applied after the
delay, tightened by the transition's guards, and canonicalised. -/
def enabling_zone_claim (ta : TimedAutomaton) (z : ZoneState) (t : Transition) : Zone :=
  let zInv := ta.apply_invariants z.zone z.location_id
  let zUp := dbm_up ta.dimension zInv
  let ready := ta.apply_invariants zUp z.location_id
  closeFW ta.dimension
    (t.guards.foldl (fun w g => constrain1 ta.dimension w g.i g.j g.value) ready)

/-- The enabling zone the code actually builds: as `enabling_zone_claim`, but
the delay step is the automaton's `time_elapse` (up followed by max-bounds
extrapolation when per-clock bounds are available). -/
def enabling_zone_code (ta : TimedAutomaton) (z : ZoneState) (t : Transition) : Zone :=
  let zInv := ta.apply_invariants z.zone z.location_id
  let zUp := ta.time_elapse zInv
  let ready := ta.apply_invariants zUp z.location_id
  closeFW ta.dimension
    (t.guards.foldl (fun w g => constrain1 ta.dimension w g.i g.j g.value) ready)

/-- The asymmetric timing rule stated over a given pair of enabling zones:
true when both are inconsistent, false when exactly one is, and otherwise the
internal / same-channel-sender / same-channel-receiver case analysis of the
claim. -/
def timing_rule (dim : Nat) (rE aE : Zone) (rt atr : Transition) : Bool :=
  let rBad := dbm_isEmptyB dim rE
  let aBad := dbm_isEmptyB dim aE
  if rBad && aBad then true
  else if rBad || aBad then false
  else
    let rel := dbm_relation dim rE aE
    let r_subset_a := decide (rel = DbmRel.subset ∨ rel = DbmRel.equal)
    let a_subset_r := decide (rel = DbmRel.superset ∨ rel = DbmRel.equal)
    ((!rt.has_synchronization && !atr.has_synchronization && r_subset_a) ||
     (rt.has_synchronization && atr.has_synchronization &&
       decide (rt.channel = atr.channel) && rt.is_sender && atr.is_sender && r_subset_a) ||
     (rt.has_synchronization && atr.has_synchronization &&
       decide (rt.channel = atr.channel) && rt.is_receiver && atr.is_receiver && a_subset_r))

/-- The timing check exactly as claim C1 states it (enabling zones built with
the plain `up`). -/
def timing_ok_claim (rta : TimedAutomaton) (rz : ZoneState) (rt : Transition)
    (ata : TimedAutomaton) (az : ZoneState) (atr : Transition) : Bool :=
  timing_rule rta.dimension (enabling_zone_claim rta rz rt) (enabling_zone_claim ata az atr)
    rt atr

/-- The timing check with the enabling zones the code builds (delay =
`time_elapse`). -/
def timing_ok_amended (rta : TimedAutomaton) (rz : ZoneState) (rt : Transition)
    (ata : TimedAutomaton) (az : ZoneState) (atr : Transition) : Bool :=
  timing_rule rta.dimension (enabling_zone_code rta rz rt) (enabling_zone_code ata az atr)
    rt atr

/-- The successor pipeline exactly as claim C4 states it: apply the source
location's invariants, let time elapse (`up`), re-apply the source location's
invariants, apply the transition's guards and resets, then the target
location's invariants, with canonicalisation at each step. -/
def successor_zone_claim (ta : TimedAutomaton) (s : ZoneState) (t : Transition) : Zone :=
  let z1 := ta.apply_invariants s.zone s.location_id
  let z2 := dbm_up ta.dimension z1
  let z3 := ta.apply_invariants z2 s.location_id
  let z4 := ta.apply_transition z3 t
  ta.apply_invariants z4 t.to_location

/-- The successor pipeline the code runs in `explore_state`: invariants,
`time_elapse`, transition, target invariants — without re-applying the source
invariants after the delay. -/
def successor_zone_code (ta : TimedAutomaton) (s : ZoneState) (t : Transition) : Zone :=
  let z1 := ta.apply_invariants s.zone s.location_id
  let z2 := ta.time_elapse z1
  let z3 := ta.apply_transition z2 t
  ta.apply_invariants z3 t.to_location

/-! ## Concrete fixtures -/

/-- A one-location automaton with no transitions (dimension 2). -/
def ta_one : TimedAutomaton :=
  { dimension := 2
    locations := [⟨0, "L0", []⟩]
    transitions := []
    clock_max_bounds := []
    clock_min_lower_bounds := []
    timing_constants := [] }

/-- The transition of `ta_guard`: `L0 → L1` on action `"a"` with guard
`x ≤ 5`. -/
def tr_guard : Transition := ⟨0, 1, "a", [⟨1, 0, Bound.bnd false 5⟩], [], "", false, false⟩

/-- Two locations and one observable transition `L0 → L1` with guard
`x ≤ 5`. -/
def ta_guard : TimedAutomaton :=
  { dimension := 2
    locations := [⟨0, "L0", []⟩, ⟨1, "L1", []⟩]
    transitions := [tr_guard]
    clock_max_bounds := []
    clock_min_lower_bounds := []
    timing_constants := [] }

/-- The transition of `ta_inv`: `L0 → L1` on action `"b"` with guard
`x ≥ 10`. -/
def tr_inv : Transition := ⟨0, 1, "b", [⟨0, 1, Bound.bnd false (-10)⟩], [], "", false, false⟩

/-- Two locations, invariant `x ≤ 5` on `L0`, and one transition with guard
`x ≥ 10` — enabled by the code's pipeline (which does not re-apply the source
invariant after the delay) but not by the claimed pipeline. -/
def ta_inv : TimedAutomaton :=
  { dimension := 2
    locations := [⟨0, "L0", [⟨1, 0, Bound.bnd false 5⟩]⟩, ⟨1, "L1", []⟩]
    transitions := [tr_inv]
    clock_max_bounds := []
    clock_min_lower_bounds := []
    timing_constants := [] }

/-- The internal transition of the timing counterexample. -/
def tr_c1 : Transition := ⟨0, 0, "a", [], [], "", false, false⟩

/-- Refined side of the timing counterexample: two clocks, per-clock maxima
`[0, 5, 5]` (an XML-built automaton with maximal timing constant 5). -/
def rta_c1 : TimedAutomaton :=
  { dimension := 3
    locations := [⟨0, "L0", []⟩]
    transitions := [tr_c1]
    clock_max_bounds := [0, 5, 5]
    clock_min_lower_bounds := [0, 0, 0]
    timing_constants := [5] }

/-- Abstract side of the timing counterexample: same automaton but with
per-clock maxima `[0, 200, 200]`. -/
def ata_c1 : TimedAutomaton :=
  { dimension := 3
    locations := [⟨0, "L0", []⟩]
    transitions := [tr_c1]
    clock_max_bounds := [0, 200, 200]
    clock_min_lower_bounds := [0, 0, 0]
    timing_constants := [200] }

/-- The canonical zone `x = 100 ∧ y = 0` (dimension 3, row-major). -/
def zone_c1 : Zone :=
  [Bound.bnd false 0, Bound.bnd false (-100), Bound.bnd false 0,
   Bound.bnd false 100, Bound.bnd false 0, Bound.bnd false 100,
   Bound.bnd false 0, Bound.bnd false (-100), Bound.bnd false 0]

/-- The zone state of the timing counterexample. -/
def zs_c1 : ZoneState := ⟨0, zone_c1, 3⟩

/-- The outside (non-arena) start state of the cache counterexample: location
0 with zone `x = 1`, a state value distinct from every arena entry. -/
def zs_ext : ZoneState :=
  ⟨0, [Bound.bnd false 0, Bound.bnd false (-1), Bound.bnd false 1, Bound.bnd false 0], 2⟩

/-- `ta_guard` with its zone graph. -/
def tg_guard : TAG := ⟨ta_guard, build_graph ta_guard 10⟩

/-- The cache after the first weak-successor query, from the arena state 0 of
`ta_guard` for action `"a"`. -/
def cache_after_first : Cache := (weak_cached false tg_guard (SRef.arena 0) "a" [] 10).2

/-- The seeded relation of the `ta_guard` self-check. -/
def seeds_guard : List PairKey :=
  seed_relation (build_graph ta_guard 10) (build_graph ta_guard 10)

/-- The seeded checker state of the `ta_guard` self-check. -/
def st_guard : CheckerSt := ⟨seeds_guard, seeds_guard, [], []⟩

/-! ## Auxiliary predicates for the zone-graph invariants -/

/-- A recorded edge `i → j` is justified by the code's pipeline: some enabled
outgoing transition of the source state produced exactly the stored target
state. -/
def edge_ok (ta : TimedAutomaton) (g : ZoneGraph) (i : Nat) (j : Int) : Prop :=
  ∃ t ∈ ta.get_outgoing_transitions ((g.states.getD i default).location_id),
    ta.is_transition_enabled
        (ta.time_elapse (ta.apply_invariants (g.states.getD i default).zone
          (g.states.getD i default).location_id)) t = true ∧
    successor_zone_code ta (g.states.getD i default) t ≠ [] ∧
    0 ≤ j ∧ j.toNat < g.states.length ∧
    g.states.getD j.toNat default =
      ⟨t.to_location, successor_zone_code ta (g.states.getD i default) t, ta.dimension⟩

/-- The zone-graph invariant maintained by the BFS: stored states have the
automaton's dimension and a well-sized zone, the adjacency table is parallel
to the arena, and every recorded edge is pipeline-justified. -/
def graph_ok (ta : TimedAutomaton) (g : ZoneGraph) : Prop :=
  (∀ s ∈ g.states, s.dimension = ta.dimension ∧
    s.zone.length = ta.dimension * ta.dimension) ∧
  g.zone_transitions.length = g.states.length ∧
  ∀ i : Nat, ∀ j : Int, j ∈ g.zone_transitions.getD i [] → edge_ok ta g i j


/-- The seeding condition of `check_rtwbs_equivalence` for the index pair
`(i, j)`: same location id and refined zone subset of or equal to the abstract
zone. -/
def seed_cond (rg ag : ZoneGraph) (i j : Nat) : Prop :=
  (rg.states.getD i default).location_id = (ag.states.getD j default).location_id ∧
  (dbm_relation (rg.states.getD i default).dimension (rg.states.getD i default).zone
      (ag.states.getD j default).zone = DbmRel.subset ∨
   dbm_relation (rg.states.getD i default).dimension (rg.states.getD i default).zone
      (ag.states.getD j default).zone = DbmRel.equal)

instance (rg ag : ZoneGraph) (i j : Nat) : Decidable (seed_cond rg ag i j) := by
  unfold seed_cond; infer_instance

/-- A pointer that is an arena entry with an index inside the arena. -/
def sref_ok (tg : TAG) (x : SRef) : Prop :=
  ∃ idx, x = SRef.arena idx ∧ idx < tg.g.states.length

/-- Every stored zone state admits a consistent delay pipeline: applying the
location's invariants, letting time elapse, and re-applying the invariants
all yield non-empty zones.  Zones stored by the construction satisfy their
location's invariants, so this holds for the graphs the checker builds; it is
the premise under which reflexivity is proved. -/
def pipeline_ok (tg : TAG) : Prop :=
  ∀ i, i < tg.g.states.length →
    tg.ta.apply_invariants (tg.g.states.getD i default).zone
        (tg.g.states.getD i default).location_id ≠ [] ∧
    tg.ta.time_elapse (tg.ta.apply_invariants (tg.g.states.getD i default).zone
        (tg.g.states.getD i default).location_id) ≠ [] ∧
    tg.ta.apply_invariants
        (tg.ta.time_elapse (tg.ta.apply_invariants (tg.g.states.getD i default).zone
          (tg.g.states.getD i default).location_id))
        (tg.g.states.getD i default).location_id ≠ []

/-- Every synchronised transition carries a direction flag.
`add_synchronization` establishes this for every automaton built through the
API: it sets `is_receiver = !is_sender`. -/
def sync_ok (ta : TimedAutomaton) : Prop :=
  ∀ t ∈ ta.transitions, t.has_synchronization = true →
    t.is_sender = true ∨ t.is_receiver = true

/-- The whole diagonal of valid state ids is contained in the relation. -/
def diag_sub (tg : TAG) (rel : List PairKey) : Prop :=
  ∀ k, k < tg.g.states.length → (⟨(k : Int), (k : Int)⟩ : PairKey) ∈ rel

/-- Every value stored in the weak-successor cache is a list of valid arena
pointers. -/
def cache_ok (tg : TAG) (c : Cache) : Prop :=
  ∀ e ∈ c, ∀ x ∈ e.2, sref_ok tg x

/-- Every pair key of the relation points into the arena on both sides. -/
def rel_bounded (tg : TAG) (rel : List PairKey) : Prop :=
  ∀ p ∈ rel, p.r.toNat < tg.g.states.length ∧ p.a.toNat < tg.g.states.length

instance (tg : TAG) : Decidable (pipeline_ok tg) := by
  unfold pipeline_ok
  infer_instance

instance (ta : TimedAutomaton) : Decidable (sync_ok ta) := by
  unfold sync_ok
  infer_instance

/-! # Theorems -/

/-! ## General helper lemmas -/

theorem foldl_invariant {α β : Type} (f : β → α → β) (P : β → Prop)
    (l : List α) (b : β) (hb : P b) (h : ∀ b a, a ∈ l → P b → P (f b a)) :
    P (l.foldl f b) := by
  induction l generalizing b with
  | nil => exact hb
  | cons x xs ih =>
    exact ih (f b x) (h b x (List.mem_cons_self x xs) hb)
      (fun b a ha => h b a (List.mem_cons_of_mem x ha))

theorem assoc_get_append_of_none {α β : Type} [DecidableEq α]
    (l : List (α × β)) (k : α) (v : β) (h : assoc_get l k = none) :
    assoc_get (l ++ [(k, v)]) k = some v := by
  induction l with
  | nil => simp [assoc_get]
  | cons e rest ih =>
    obtain ⟨k', v'⟩ := e
    by_cases he : k' = k
    · simp only [assoc_get, if_pos he] at h
      cases h
    · simp only [assoc_get, if_neg he] at h
      simp only [List.cons_append, assoc_get, if_neg he]
      exact ih h

/-! ## C10: the simulation-only variant always returns false -/

/-- C10: for every pair of timed automata, `check_rtwbs_simulation` returns
false: its relation-seeding block is guarded by a constant-false condition, so
the candidate relation is always empty when the emptiness check runs and the
function returns false before any validation. -/
theorem check_rtwbs_simulation_false (cancel : Bool) (refined abstract : TimedAutomaton)
    (gfuel wfuel tfuel : Nat) :
    check_rtwbs_simulation cancel refined abstract gfuel wfuel tfuel = false := by
  unfold check_rtwbs_simulation
  cases cancel with
  | true => rfl
  | false =>
    by_cases hre :
        ((build_graph refined gfuel).states.isEmpty
          || (build_graph abstract gfuel).states.isEmpty) = true
    · simp [hre]
    · simp [hre]

/-! ## C1: the asymmetric timing rule of `timing_ok` -/

/-- C1 (counterexample): the claim describes the enabling zones as built by
the plain `up` operator, but `timing_ok` builds them with `time_elapse`, which
also extrapolates with the automaton's per-clock maximal bounds.  With a
refined automaton whose maximal constant is 5 and an abstract one whose
maximal constant is 200, starting both from the zone `x = 100 ∧ y = 0` with
the same internal transition, extrapolation strictly widens only the refined
enabling zone: `timing_ok` returns false while the claim's case analysis
returns true. -/
theorem timing_ok_claim_counterexample :
    timing_ok rta_c1 zs_c1 tr_c1 ata_c1 zs_c1 tr_c1 = false ∧
    timing_ok_claim rta_c1 zs_c1 tr_c1 ata_c1 zs_c1 tr_c1 = true := by
  constructor
  · rfl
  · rfl


/-- C1 (amended): for zone states on which the pre-guard pipeline (invariants,
delay, re-applied invariants) is consistent on both sides, for transitions
that are not simultaneously sender and receiver, and for automata of equal
dimension, `timing_ok` equals the claimed case analysis with the enabling
zones built as `time_elapse(apply_invariants(Z))` — `up` followed by
max-bounds extrapolation when per-clock bounds are available — with the
location invariants re-applied after the delay, tightened by the transition's
guards and canonicalised: true when both enabling zones are inconsistent,
false when exactly one is, and for two consistent zones true iff (a) neither
transition is synchronised and refined ⊆ abstract, (b) both send on the same
channel and refined ⊆ abstract, or (c) both receive on the same channel and
abstract ⊆ refined. -/
theorem timing_ok_matches_amended_rule (rta ata : TimedAutomaton) (rz az : ZoneState)
    (rt atr : Transition)
    (h1 : rta.apply_invariants rz.zone rz.location_id ≠ [])
    (h2 : rta.time_elapse (rta.apply_invariants rz.zone rz.location_id) ≠ [])
    (h3 : rta.apply_invariants
        (rta.time_elapse (rta.apply_invariants rz.zone rz.location_id)) rz.location_id ≠ [])
    (h4 : ata.apply_invariants az.zone az.location_id ≠ [])
    (h5 : ata.time_elapse (ata.apply_invariants az.zone az.location_id) ≠ [])
    (h6 : ata.apply_invariants
        (ata.time_elapse (ata.apply_invariants az.zone az.location_id)) az.location_id ≠ [])
    (h7 : ¬(rt.is_sender = true ∧ rt.is_receiver = true))
    (h8 : ¬(atr.is_sender = true ∧ atr.is_receiver = true))
    (hd : ata.dimension = rta.dimension) :
    timing_ok rta rz rt ata az atr = timing_ok_amended rta rz rt ata az atr := by
  have e1 := List.isEmpty_eq_false.mpr h1
  have e2 := List.isEmpty_eq_false.mpr h2
  have e3 := List.isEmpty_eq_false.mpr h3
  have e4 := List.isEmpty_eq_false.mpr h4
  have e5 := List.isEmpty_eq_false.mpr h5
  have e6 := List.isEmpty_eq_false.mpr h6
  unfold timing_ok timing_ok_amended timing_rule enabling_zone_code
  simp only [e1, e2, e3, e4, e5, e6, Bool.false_eq_true, if_false, hd]
  set rG := closeFW rta.dimension
    (rt.guards.foldl (fun z g => constrain1 rta.dimension z g.i g.j g.value)
      (rta.apply_invariants
        (rta.time_elapse (rta.apply_invariants rz.zone rz.location_id)) rz.location_id)) with hrG
  set aG := closeFW rta.dimension
    (atr.guards.foldl (fun z g => constrain1 rta.dimension z g.i g.j g.value)
      (ata.apply_invariants
        (ata.time_elapse (ata.apply_invariants az.zone az.location_id)) az.location_id)) with haG
  cases hR : dbm_isEmptyB rta.dimension rG <;> cases hA : dbm_isEmptyB rta.dimension aG <;>
    simp only [hR, hA, Bool.not_true, Bool.not_false, Bool.not_not, Bool.true_and,
      Bool.false_and, Bool.and_true, Bool.and_false, Bool.true_or, Bool.or_true,
      Bool.false_or, Bool.or_false, Bool.false_eq_true, Bool.true_eq_false,
      if_true, if_false]
  · cases hrs : rt.has_synchronization <;> cases has : atr.has_synchronization <;>
      cases hs1 : rt.is_sender <;> cases hs2 : atr.is_sender <;>
      cases hr1 : rt.is_receiver <;> cases hr2 : atr.is_receiver <;>
      simp_all

/-- Witness for the amended C1 theorem at a concrete input: the initial state
of `ta_guard` against itself with its guarded transition. -/
theorem timing_ok_matches_amended_rule_witness :
    ta_guard.apply_invariants (⟨0, dbm_init 2, 2⟩ : ZoneState).zone
        (⟨0, dbm_init 2, 2⟩ : ZoneState).location_id ≠ [] ∧
    timing_ok ta_guard ⟨0, dbm_init 2, 2⟩ tr_guard ta_guard ⟨0, dbm_init 2, 2⟩ tr_guard =
      timing_ok_amended ta_guard ⟨0, dbm_init 2, 2⟩ tr_guard ta_guard ⟨0, dbm_init 2, 2⟩
        tr_guard :=
  ⟨by decide,
   timing_ok_matches_amended_rule ta_guard ta_guard ⟨0, dbm_init 2, 2⟩ ⟨0, dbm_init 2, 2⟩
     tr_guard tr_guard (by decide) (by decide) (by decide) (by decide) (by decide) (by decide)
     (by decide) (by decide) rfl⟩

/-! ## C5: memoisation of the weak-successor query -/

/-- C5 (counterexample): the weak-successor cache is keyed by
`(start->location_id, action)`, not by the start state: after a first query
from the arena state 0 of `ta_guard` (location 0) for action `"a"`, a query
from a distinct outside start state with the same location id returns the
cached list `[arena 1]`, while the unmemoised computation from that start
state returns the empty list. -/
theorem weak_cached_counterexample :
    (weak_cached false tg_guard (SRef.ext zs_ext) "a" cache_after_first 10).1 = [SRef.arena 1] ∧
    weak_observable_successors_raw false tg_guard (SRef.ext zs_ext) "a" 10 = [] ∧
    SRef.ext zs_ext ≠ SRef.arena 0 := by
  refine ⟨by decide, by decide, by decide⟩

/-- C5 (amended): the memoised weak-successor query is keyed by the pair
(location id of the start state, action) in a cache shared by both automata of
a check; hence any two start states with the same location id receive the same
result — in particular, a query made after one for another state of the same
location returns the first query's result, which agrees with the unmemoised
computation only for the first-queried start state. -/
theorem weak_cached_shares_by_location (tg : TAG) (s1 s2 : SRef) (action : String)
    (cache : Cache) (cancel : Bool) (fuel : Nat)
    (h : (tg.deref s1).location_id = (tg.deref s2).location_id) :
    (weak_cached cancel tg s2 action (weak_cached cancel tg s1 action cache fuel).2 fuel).1 =
      (weak_cached cancel tg s1 action cache fuel).1 := by
  unfold weak_cached
  rw [← h]
  cases hlook : assoc_get cache ((tg.deref s1).location_id, action) with
  | some v => simp [hlook]
  | none =>
    simp only [hlook]
    rw [assoc_get_append_of_none _ _ _ hlook]

/-- Witness for the amended C5 theorem: the two same-location start states of
the counterexample share the cached result. -/
theorem weak_cached_shares_by_location_witness :
    (tg_guard.deref (SRef.arena 0)).location_id = (tg_guard.deref (SRef.ext zs_ext)).location_id ∧
    (weak_cached false tg_guard (SRef.ext zs_ext) "a"
        (weak_cached false tg_guard (SRef.arena 0) "a" [] 10).2 10).1 =
      (weak_cached false tg_guard (SRef.arena 0) "a" [] 10).1 :=
  ⟨by decide,
   weak_cached_shares_by_location tg_guard (SRef.arena 0) (SRef.ext zs_ext) "a" [] false 10
     (by decide)⟩

/-! ## C9: cooperative cancellation inside the interior loops -/

/-- C9 (counterexample): with the cancel flag set, the zone-graph construction
BFS does not stop expanding — it has no access to the flag and builds the full
two-state graph of `ta_guard` — and the OpenMP-style batched worklist loop
neither clears the relation nor stops validating: on the `ta_guard` self-check
it runs validations (the weak-successor cache grows) and terminates with the
full seeded relation instead of an empty one. -/
theorem cancellation_claim_counterexample :
    (build_graph ta_guard 10).states.length = 2 ∧
    seeds_guard = [⟨0, 0⟩, ⟨1, 1⟩] ∧
    (run_omp true tg_guard tg_guard 10 1 10 st_guard).1.relation = seeds_guard ∧
    (run_omp true tg_guard tg_guard 10 1 10 st_guard).2 = true ∧
    (run_omp true tg_guard tg_guard 10 1 10 st_guard).1.cache ≠ [] := by
  refine ⟨by decide, by decide, by decide, by decide, by decide⟩

/-- C9 (amended): once the cooperative cancel flag is set, the τ-closure BFS
bails out at the head of its next iteration, returning the closure collected
so far, and the serial worklist loop detects the flag before popping, clears
the relation and returns; the zone-graph construction BFS and the OpenMP-style
batched worklist loop do not consult the flag (see the counterexample: the
former runs to completion and the latter keeps validating, with weak-successor
queries returning empty sets, until the worklist drains). -/
theorem cancellation_amended :
    (∀ (tg : TAG) (fuel : Nat) (q visited closure : List SRef),
        tau_loop true tg fuel q visited closure = closure) ∧
    (∀ (rtg atg : TAG) (wfuel fuel : Nat) (st : CheckerSt),
        st.worklist ≠ [] → 0 < fuel →
        run_serial true rtg atg wfuel fuel st = ({ st with relation := [] }, true)) := by
  constructor
  · intro tg fuel q visited closure
    cases fuel with
    | zero => rfl
    | succ n => cases q with
      | nil => rfl
      | cons z rest => rfl
  · intro rtg atg wfuel fuel st hw hf
    cases fuel with
    | zero => exact absurd hf (Nat.lt_irrefl 0)
    | succ n =>
      cases hq : st.worklist with
      | nil => exact absurd hq hw
      | cons current rest =>
        unfold run_serial
        rw [hq]
        rfl

/-- Witness for the amended C9 theorem: the serial worklist loop of the
`ta_guard` self-check, cancelled with a non-empty worklist, clears the
relation immediately. -/
theorem cancellation_amended_witness :
    st_guard.worklist ≠ [] ∧
    run_serial true tg_guard tg_guard 10 5 st_guard =
      ({ st_guard with relation := [] }, true) :=
  ⟨by decide,
   cancellation_amended.2 tg_guard tg_guard 10 5 st_guard (by decide) (by decide)⟩


theorem seed_step_mem (rg ag : ZoneGraph) (i x : Nat) (acc : List PairKey) (p : PairKey) :
    (p ∈ (fun (acc : List PairKey) (j : Nat) =>
      let rs := rg.states.getD i default
      let as_ := ag.states.getD j default
      if rs.location_id = as_.location_id then
        let rel := dbm_relation rs.dimension rs.zone as_.zone
        if rel = DbmRel.subset ∨ rel = DbmRel.equal then
          let pk : PairKey := ⟨(i : Int), (j : Int)⟩
          if pk ∈ acc then acc else acc ++ [pk]
        else acc
      else acc) acc x) ↔
    p ∈ acc ∨ (seed_cond rg ag i x ∧ p = ⟨(i : Int), (x : Int)⟩) := by
  unfold seed_cond
  dsimp only
  by_cases h1 : (rg.states.getD i default).location_id = (ag.states.getD x default).location_id
  · rw [if_pos h1]
    by_cases h2 : dbm_relation (rg.states.getD i default).dimension
        (rg.states.getD i default).zone (ag.states.getD x default).zone = DbmRel.subset ∨
      dbm_relation (rg.states.getD i default).dimension
        (rg.states.getD i default).zone (ag.states.getD x default).zone = DbmRel.equal
    · rw [if_pos h2]
      by_cases h3 : (⟨(i : Int), (x : Int)⟩ : PairKey) ∈ acc
      · rw [if_pos h3]
        constructor
        · exact Or.inl
        · rintro (hp | ⟨-, rfl⟩)
          · exact hp
          · exact h3
      · rw [if_neg h3]
        constructor
        · intro hp
          rcases List.mem_append.mp hp with hp | hp
          · exact Or.inl hp
          · exact Or.inr ⟨⟨h1, h2⟩, List.mem_singleton.mp hp⟩
        · rintro (hp | ⟨-, rfl⟩)
          · exact List.mem_append.mpr (Or.inl hp)
          · exact List.mem_append.mpr (Or.inr (List.mem_singleton.mpr rfl))
    · rw [if_neg h2]
      constructor
      · exact Or.inl
      · rintro (hp | ⟨⟨-, hc⟩, -⟩)
        · exact hp
        · exact absurd hc h2
  · rw [if_neg h1]
    constructor
    · exact Or.inl
    · rintro (hp | ⟨⟨hc, -⟩, -⟩)
      · exact hp
      · exact absurd hc h1

theorem seed_inner_mem (rg ag : ZoneGraph) (i : Nat) (l : List Nat) (acc : List PairKey)
    (p : PairKey) :
    (p ∈ l.foldl (fun (acc : List PairKey) (j : Nat) =>
      let rs := rg.states.getD i default
      let as_ := ag.states.getD j default
      if rs.location_id = as_.location_id then
        let rel := dbm_relation rs.dimension rs.zone as_.zone
        if rel = DbmRel.subset ∨ rel = DbmRel.equal then
          let pk : PairKey := ⟨(i : Int), (j : Int)⟩
          if pk ∈ acc then acc else acc ++ [pk]
        else acc
      else acc) acc) ↔
    p ∈ acc ∨ ∃ j ∈ l, seed_cond rg ag i j ∧ p = ⟨(i : Int), (j : Int)⟩ := by
  induction l generalizing acc with
  | nil => simp
  | cons x xs ih =>
    rw [List.foldl_cons, ih]
    rw [seed_step_mem rg ag i x acc p]
    constructor
    · rintro ((hp | hx) | ⟨j, hj, hc, rfl⟩)
      · exact Or.inl hp
      · exact Or.inr ⟨x, List.mem_cons_self x xs, hx⟩
      · exact Or.inr ⟨j, List.mem_cons_of_mem x hj, hc, rfl⟩
    · rintro (hp | ⟨j, hj, hc, rfl⟩)
      · exact Or.inl (Or.inl hp)
      · rcases List.mem_cons.mp hj with rfl | hj
        · exact Or.inl (Or.inr ⟨hc, rfl⟩)
        · exact Or.inr ⟨j, hj, hc, rfl⟩

theorem seed_relation_mem (rg ag : ZoneGraph) (p : PairKey) :
    p ∈ seed_relation rg ag ↔
      ∃ i < rg.states.length, ∃ j < ag.states.length,
        seed_cond rg ag i j ∧ p = ⟨(i : Int), (j : Int)⟩ := by
  unfold seed_relation
  have outer : ∀ (l : List Nat) (acc : List PairKey),
      (p ∈ l.foldl (fun acc i =>
        (List.range ag.states.length).foldl (fun (acc : List PairKey) (j : Nat) =>
          let rs := rg.states.getD i default
          let as_ := ag.states.getD j default
          if rs.location_id = as_.location_id then
            let rel := dbm_relation rs.dimension rs.zone as_.zone
            if rel = DbmRel.subset ∨ rel = DbmRel.equal then
              let pk : PairKey := ⟨(i : Int), (j : Int)⟩
              if pk ∈ acc then acc else acc ++ [pk]
            else acc
          else acc) acc) acc) ↔
      p ∈ acc ∨ ∃ i ∈ l, ∃ j ∈ List.range ag.states.length,
        seed_cond rg ag i j ∧ p = ⟨(i : Int), (j : Int)⟩ := by
    intro l
    induction l with
    | nil => intro acc; simp
    | cons x xs ih =>
      intro acc
      rw [List.foldl_cons, ih]
      rw [seed_inner_mem rg ag x (List.range ag.states.length) acc p]
      constructor
      · rintro ((hp | ⟨j, hj, hc, rfl⟩) | ⟨i, hi, j, hj, hc, rfl⟩)
        · exact Or.inl hp
        · exact Or.inr ⟨x, List.mem_cons_self x xs, j, hj, hc, rfl⟩
        · exact Or.inr ⟨i, List.mem_cons_of_mem x hi, j, hj, hc, rfl⟩
      · rintro (hp | ⟨i, hi, j, hj, hc, rfl⟩)
        · exact Or.inl (Or.inl hp)
        · rcases List.mem_cons.mp hi with rfl | hi
          · exact Or.inl (Or.inr ⟨j, hj, hc, rfl⟩)
          · exact Or.inr ⟨i, hi, j, hj, hc, rfl⟩
  rw [outer (List.range rg.states.length) []]
  simp [List.mem_range]


theorem rel_erase_subset (l : List PairKey) (p : PairKey) : rel_erase l p ⊆ l :=
  fun _ hq => (List.mem_filter.mp hq).1

theorem run_serial_relation_subset (cancel : Bool) (rtg atg : TAG) (wfuel : Nat) :
    ∀ (fuel : Nat) (st : CheckerSt),
      ((run_serial cancel rtg atg wfuel fuel st).1).relation ⊆ st.relation := by
  intro fuel
  induction fuel with
  | zero => intro st p hp; exact hp
  | succ n ih =>
    intro st
    unfold run_serial
    cases hw : st.worklist with
    | nil => exact fun p hp => hp
    | cons current rest =>
      dsimp only
      split
      · exact fun p hp => absurd hp (List.not_mem_nil p)
      · split
        · exact ih _
        · split
          · split
            · exact fun p hp => hp
            · exact ih _
          · split
            · exact rel_erase_subset _ _
            · exact fun p hp => rel_erase_subset _ _ (ih _ hp)

theorem omp_apply_removals_subset :
    ∀ (rem : List PairKey) (st : CheckerSt),
      (omp_apply_removals st rem).relation ⊆ st.relation := by
  intro rem
  induction rem with
  | nil => intro st p hp; exact hp
  | cons pk rest ih =>
    intro st p hp
    unfold omp_apply_removals at hp
    exact rel_erase_subset _ _ (ih _ hp)

theorem run_omp_relation_subset (cancel : Bool) (rtg atg : TAG) (wfuel nthreads : Nat) :
    ∀ (fuel : Nat) (st : CheckerSt),
      ((run_omp cancel rtg atg wfuel nthreads fuel st).1).relation ⊆ st.relation := by
  intro fuel
  induction fuel with
  | zero => intro st p hp; exact hp
  | succ n ih =>
    intro st
    unfold run_omp
    split
    · exact fun p hp => hp
    · dsimp only
      intro p hp
      have h2 := ih _ hp
      have h3 := omp_apply_removals_subset _ _ h2
      exact h3


/-- C2: in `check_rtwbs_equivalence`, after both zone graphs are built the
candidate relation and the worklist are seeded with exactly the pairs
`(r, a)` of state ids such that the two states have the same location id and
`dbm_relation` of their DBMs yields SUBSET or EQUAL; the worklist loop —
serial or batched — never adds a pair to the relation after seeding (every
reachable relation is a subset of the seeds); and if no pair qualifies the
check returns false. -/
theorem check_equivalence_seeding (refined abstract : TimedAutomaton) (use_omp : Bool)
    (nthreads gfuel wfuel tfuel : Nat) (rg ag : ZoneGraph) (seeds : List PairKey)
    (hrg : rg = build_graph refined gfuel) (hag : ag = build_graph abstract gfuel)
    (hseeds : seeds = seed_relation rg ag) :
    (∀ p : PairKey, p ∈ seeds ↔ ∃ i < rg.states.length, ∃ j < ag.states.length,
        seed_cond rg ag i j ∧ p = ⟨(i : Int), (j : Int)⟩) ∧
    (∀ (tf : Nat) (st : CheckerSt × Bool),
        run_serial false ⟨refined, rg⟩ ⟨abstract, ag⟩ wfuel tf ⟨seeds, seeds, [], []⟩ = st →
        st.1.relation ⊆ seeds) ∧
    (∀ (tf : Nat) (st : CheckerSt × Bool),
        run_omp false ⟨refined, rg⟩ ⟨abstract, ag⟩ wfuel nthreads tf ⟨seeds, seeds, [], []⟩ = st →
        st.1.relation ⊆ seeds) ∧
    (seeds = [] →
      check_rtwbs_equivalence false refined abstract use_omp nthreads gfuel wfuel tfuel =
        some false) := by
  refine ⟨fun p => hseeds ▸ seed_relation_mem rg ag p, ?_, ?_, ?_⟩
  · intro tf st hst
    rw [← hst]
    exact run_serial_relation_subset false ⟨refined, rg⟩ ⟨abstract, ag⟩ wfuel tf _
  · intro tf st hst
    rw [← hst]
    exact run_omp_relation_subset false ⟨refined, rg⟩ ⟨abstract, ag⟩ wfuel nthreads tf _
  · intro hempty
    subst hrg hag
    have hempty' : seed_relation (build_graph refined gfuel) (build_graph abstract gfuel) = [] :=
      hseeds ▸ hempty
    unfold check_rtwbs_equivalence
    by_cases hge : ((build_graph refined gfuel).states.isEmpty
        || (build_graph abstract gfuel).states.isEmpty) = true
    · simp [hge]
    · simp [hge, hempty']

/-- Witness for the C2 theorem: the diagonal pair `(0, 0)` qualifies for the
`ta_one` self-check and is seeded. -/
theorem check_equivalence_seeding_witness :
    (⟨0, 0⟩ : PairKey) ∈ seed_relation (build_graph ta_one 5) (build_graph ta_one 5) :=
  ((check_equivalence_seeding ta_one ta_one false 1 5 5 5
      (build_graph ta_one 5) (build_graph ta_one 5)
      (seed_relation (build_graph ta_one 5) (build_graph ta_one 5))
      rfl rfl rfl).1 ⟨0, 0⟩).mpr
    ⟨0, by decide, 0, by decide, by decide, rfl⟩

theorem add_state_states (ta : TimedAutomaton) (g : ZoneGraph) (loc : Int) (zone : Zone) :
    (add_state ta g loc zone).1.states = g.states ∨
      (add_state ta g loc zone).1.states =
        g.states ++ [(⟨loc, zone, ta.dimension⟩ : ZoneState)] := by
  unfold add_state
  by_cases hlen : zone.length ≠ ta.dimension * ta.dimension
  · rw [if_pos hlen]
    exact Or.inl rfl
  · rw [if_neg hlen]
    dsimp only
    cases hidx : g.states.findIdx?
        (fun s => decide (s = (⟨loc, zone, ta.dimension⟩ : ZoneState))) with
    | some i =>
      simp only [hidx]
      exact Or.inl trivial
    | none =>
      simp only [hidx]
      exact Or.inr trivial

theorem foldl_states_extend {α : Type} (F : ZoneGraph → α → ZoneGraph)
    (hF : ∀ g a, ∃ tail, (F g a).states = g.states ++ tail) :
    ∀ (l : List α) (g : ZoneGraph), ∃ tail, (l.foldl F g).states = g.states ++ tail := by
  intro l
  induction l with
  | nil => intro g; exact ⟨[], (List.append_nil _).symm⟩
  | cons x rest ih =>
    intro g
    rw [List.foldl_cons]
    obtain ⟨t1, h1⟩ := hF g x
    obtain ⟨t2, h2⟩ := ih (F g x)
    exact ⟨t1 ++ t2, by rw [h2, h1, List.append_assoc]⟩

theorem explore_state_states_extend (ta : TimedAutomaton) (g : ZoneGraph) (id : Nat) :
    ∃ tail, (explore_state ta g id).states = g.states ++ tail := by
  unfold explore_state
  cases hs : g.states.get? id with
  | none => exact ⟨[], (List.append_nil _).symm⟩
  | some s =>
    dsimp only
    split
    · exact ⟨[], (List.append_nil _).symm⟩
    · split
      · exact ⟨[], (List.append_nil _).symm⟩
      · apply foldl_states_extend
        intro g' t
        dsimp only
        split
        · split
          · exact ⟨[], (List.append_nil _).symm⟩
          · split
            · exact ⟨[], (List.append_nil _).symm⟩
            · rcases add_state_states ta g' t.to_location
                (ta.apply_invariants (ta.apply_transition
                  (ta.time_elapse (ta.apply_invariants s.zone s.location_id)) t)
                  t.to_location) with h | h
              · exact ⟨[], by rw [h, List.append_nil]⟩
              · exact ⟨[_], h⟩
        · exact ⟨[], (List.append_nil _).symm⟩

theorem zg_loop_states_extend (ta : TimedAutomaton) (ms : Nat) :
    ∀ (fuel : Nat) (g : ZoneGraph), ∃ tail, (zg_loop ta ms fuel g).states = g.states ++ tail := by
  intro fuel
  induction fuel with
  | zero => intro g; exact ⟨[], (List.append_nil _).symm⟩
  | succ n ih =>
    intro g
    unfold zg_loop
    cases hw : g.waiting with
    | nil => exact ⟨[], (List.append_nil _).symm⟩
    | cons id rest =>
      dsimp only
      split
      · exact ⟨[], (List.append_nil _).symm⟩
      · obtain ⟨t1, h1⟩ := explore_state_states_extend ta { g with waiting := rest } id
        obtain ⟨t2, h2⟩ := ih (explore_state ta { g with waiting := rest } id)
        refine ⟨t1 ++ t2, ?_⟩
        rw [h2, h1]
        simp


theorem build_graph_first_state (ta : TimedAutomaton) (fuel : Nat) :
    ∃ tail, (build_graph ta fuel).states =
      (⟨0, dbm_init ta.dimension, ta.dimension⟩ : ZoneState) :: tail := by
  unfold build_graph construct_zone_graph
  have hlen : ¬((dbm_init ta.dimension).length ≠ ta.dimension * ta.dimension) := by
    simp [dbm_init]
  have hadd : (add_state ta ⟨[], [], []⟩ 0 (dbm_init ta.dimension)).1.states =
      [(⟨0, dbm_init ta.dimension, ta.dimension⟩ : ZoneState)] := by
    unfold add_state
    rw [if_neg hlen]
    rfl
  obtain ⟨tail, htail⟩ :=
    zg_loop_states_extend ta 100000 fuel (add_state ta ⟨[], [], []⟩ 0 (dbm_init ta.dimension)).1
  refine ⟨tail, ?_⟩
  rw [htail, hadd]
  rfl

/-- C3: for every pair of timed automata with non-empty zone graphs and with
no cancellation, when the serial worklist loop terminates in state `fin`,
`check_rtwbs_equivalence` returns true iff the pair of zone-state ids
`(0, 0)` is still in the relation of `fin`; and id 0 is the initial state of
each zone graph — the state first added during construction, namely the
default initial location 0 with the `dbm_init` zero zone. -/
theorem check_equivalence_initial_pair (refined abstract : TimedAutomaton)
    (nthreads gfuel wfuel tfuel : Nat) (fin : CheckerSt)
    (h1 : (build_graph refined gfuel).states ≠ [])
    (h2 : (build_graph abstract gfuel).states ≠ [])
    (hrun : run_serial false ⟨refined, build_graph refined gfuel⟩
        ⟨abstract, build_graph abstract gfuel⟩ wfuel tfuel
        ⟨seed_relation (build_graph refined gfuel) (build_graph abstract gfuel),
         seed_relation (build_graph refined gfuel) (build_graph abstract gfuel), [], []⟩ =
        (fin, true)) :
    check_rtwbs_equivalence false refined abstract false nthreads gfuel wfuel tfuel =
      some (decide ((⟨0, 0⟩ : PairKey) ∈ fin.relation)) ∧
    (build_graph refined gfuel).states.getD 0 default =
      ⟨0, dbm_init refined.dimension, refined.dimension⟩ ∧
    (build_graph abstract gfuel).states.getD 0 default =
      ⟨0, dbm_init abstract.dimension, abstract.dimension⟩ := by
  have e1 := List.isEmpty_eq_false.mpr h1
  have e2 := List.isEmpty_eq_false.mpr h2
  refine ⟨?_, ?_, ?_⟩
  · unfold check_rtwbs_equivalence
    simp only [Bool.false_eq_true, if_false, e1, e2, Bool.or_self, Bool.or_false]
    by_cases hs : (seed_relation (build_graph refined gfuel)
        (build_graph abstract gfuel)).isEmpty = true
    · have hseed := List.isEmpty_eq_true.mp hs
      rw [hseed] at hrun
      have hrun0 : run_serial false ⟨refined, build_graph refined gfuel⟩
          ⟨abstract, build_graph abstract gfuel⟩ wfuel tfuel
          (⟨[], [], [], []⟩ : CheckerSt) = (⟨[], [], [], []⟩, true) := by
        cases tfuel <;> rfl
      rw [hrun0] at hrun
      have hfin : (⟨[], [], [], []⟩ : CheckerSt) = fin := congrArg Prod.fst hrun
      simp [hs, ← hfin]
    · have hs' : (seed_relation (build_graph refined gfuel)
          (build_graph abstract gfuel)).isEmpty = false := by
        simpa using hs
      simp only [hs', Bool.false_eq_true, if_false, hrun]
      simp
  · obtain ⟨tail, ht⟩ := build_graph_first_state refined gfuel
    rw [ht]
    rfl
  · obtain ⟨tail, ht⟩ := build_graph_first_state abstract gfuel
    rw [ht]
    rfl

/-- Witness for the C3 theorem: the `ta_one` self-check terminates with
relation `[(0, 0)]` and returns accordingly. -/
theorem check_equivalence_initial_pair_witness :
    (build_graph ta_one 5).states ≠ [] ∧
    check_rtwbs_equivalence false ta_one ta_one false 1 5 5 5 =
      some (decide ((⟨0, 0⟩ : PairKey) ∈
        (⟨[⟨0, 0⟩], [], [], []⟩ : CheckerSt).relation)) :=
  ⟨by decide,
   (check_equivalence_initial_pair ta_one ta_one 1 5 5 5 ⟨[⟨0, 0⟩], [], [], []⟩
      (by decide) (by decide) (by decide)).1⟩



theorem serial_eq_pool_pairs (nthreads gfuel wfuel tfuel : Nat) :
    ∀ (l : List (TimedAutomaton × TimedAutomaton)) (all : Bool),
      sys_pairs_go false false nthreads gfuel wfuel tfuel l all =
        pool_agg false (l.map fun p =>
          check_rtwbs_equivalence false p.1 p.2 false nthreads gfuel wfuel tfuel) all := by
  intro l
  induction l with
  | nil => intro all; rfl
  | cons p rest ih =>
    obtain ⟨r, a⟩ := p
    intro all
    unfold sys_pairs_go pool_agg
    simp only [List.map_cons, Bool.false_eq_true, if_false]
    cases hcv : check_rtwbs_equivalence false r a false nthreads gfuel wfuel tfuel with
    | none => rfl
    | some b => exact ih (all && b)

/-- C7: for the same two input systems of equal size and with no timeout
triggered, the system-level check returns the same value in SERIAL mode as in
THREAD-POOL mode (one task per automaton pair, each worker on a fresh checker
instance — which matches the serial path because every per-pair check starts
by clearing the per-call checker state). -/
theorem serial_matches_thread_pool (sr sa : List TimedAutomaton)
    (nthreads gfuel wfuel tfuel : Nat) (timeout_ms : Int) (expires : Bool)
    (hlen : sr.length = sa.length)
    (hnc : timeout_ms < 0 ∨ (0 < timeout_ms ∧ expires = false)) :
    check_rtwbs_equivalence_system sr sa RunningMode.SERIAL nthreads gfuel wfuel tfuel
        timeout_ms expires =
      check_rtwbs_equivalence_system sr sa RunningMode.THREAD_POOL nthreads gfuel wfuel tfuel
        timeout_ms expires := by
  unfold check_rtwbs_equivalence_system
  rw [if_neg (not_not_intro hlen), if_neg (not_not_intro hlen)]
  have hcancel : (if timeout_ms < 0 then false else if timeout_ms = 0 then true else expires) =
      false := by
    rcases hnc with h | ⟨h, he⟩
    · rw [if_pos h]
    · rw [if_neg (by omega), if_neg (by omega), he]
  simp only [hcancel]
  unfold check_rtwbs_equivalence_pairs run_pool
  have hpool : ¬((false : Bool) = true ∧ ¬sr.isEmpty = true) := by simp
  rw [if_neg hpool]
  rw [serial_eq_pool_pairs]

/-- Witness for the C7 theorem: singleton systems of `ta_one`, no watchdog. -/
theorem serial_matches_thread_pool_witness :
    ([ta_one].length = [ta_one].length) ∧
    check_rtwbs_equivalence_system [ta_one] [ta_one] RunningMode.SERIAL 1 5 5 5 (-1) false =
      check_rtwbs_equivalence_system [ta_one] [ta_one] RunningMode.THREAD_POOL 1 5 5 5 (-1)
        false :=
  ⟨rfl,
   serial_matches_thread_pool [ta_one] [ta_one] 1 5 5 5 (-1) false rfl
     (Or.inl (by decide))⟩

theorem sys_pairs_go_cancelled (use_omp : Bool) (nthreads gfuel wfuel tfuel : Nat)
    (l : List (TimedAutomaton × TimedAutomaton)) (all : Bool) :
    ∃ b, sys_pairs_go true use_omp nthreads gfuel wfuel tfuel l all = some b := by
  cases l with
  | nil => exact ⟨all, rfl⟩
  | cons p rest =>
    obtain ⟨r, a⟩ := p
    exact ⟨false, rfl⟩

theorem pairs_cancelled (use_omp : Bool) (sr sa : List TimedAutomaton)
    (nthreads gfuel wfuel tfuel : Nat) :
    ∃ b, check_rtwbs_equivalence_pairs true sr sa use_omp nthreads gfuel wfuel tfuel = some b :=
  sys_pairs_go_cancelled use_omp nthreads gfuel wfuel tfuel (sr.zip sa) true

theorem run_pool_cancelled (sr sa : List TimedAutomaton) (nthreads gfuel wfuel tfuel : Nat) :
    ∃ b, run_pool true sr sa nthreads gfuel wfuel tfuel = some b := by
  cases sr with
  | nil => exact ⟨true, rfl⟩
  | cons ta rest => exact ⟨false, rfl⟩

theorem system_cancelled_err (sr sa : List TimedAutomaton) (mode : RunningMode)
    (nthreads gfuel wfuel tfuel : Nat) (timeout_ms : Int) (expires : Bool)
    (hlen : sr.length = sa.length)
    (hc : (if timeout_ms < 0 then false else if timeout_ms = 0 then true else expires) = true) :
    check_rtwbs_equivalence_system sr sa mode nthreads gfuel wfuel tfuel timeout_ms expires =
      some (Except.error ()) := by
  unfold check_rtwbs_equivalence_system
  rw [if_neg (not_not_intro hlen)]
  simp only [hc]
  cases mode with
  | SERIAL =>
    obtain ⟨b, hb⟩ := pairs_cancelled false sr sa nthreads gfuel wfuel tfuel
    simp [hb]
  | OPENMP =>
    obtain ⟨b, hb⟩ := pairs_cancelled true sr sa nthreads gfuel wfuel tfuel
    simp [hb]
  | THREAD_POOL =>
    obtain ⟨b, hb⟩ := run_pool_cancelled sr sa nthreads gfuel wfuel tfuel
    simp [hb]

theorem system_uncancelled_no_err (sr sa : List TimedAutomaton) (mode : RunningMode)
    (nthreads gfuel wfuel tfuel : Nat) (timeout_ms : Int) (expires : Bool)
    (hlen : sr.length = sa.length)
    (hc : (if timeout_ms < 0 then false else if timeout_ms = 0 then true else expires) = false) :
    check_rtwbs_equivalence_system sr sa mode nthreads gfuel wfuel tfuel timeout_ms expires ≠
      some (Except.error ()) := by
  unfold check_rtwbs_equivalence_system
  rw [if_neg (not_not_intro hlen)]
  simp only [hc]
  cases hres : (match mode with
    | RunningMode.SERIAL => check_rtwbs_equivalence_pairs false sr sa false nthreads gfuel wfuel tfuel
    | RunningMode.OPENMP => check_rtwbs_equivalence_pairs false sr sa true nthreads gfuel wfuel tfuel
    | RunningMode.THREAD_POOL => run_pool false sr sa nthreads gfuel wfuel tfuel) with
  | none => simp
  | some b => simp

/-- C8: for systems of equal size the timeout contract holds: with
`timeout_ms < 0` no watchdog exists and the timeout error is never raised;
with `timeout_ms = 0` the watchdog sets the cancel flag unconditionally and —
since the driver joins the watchdog before testing the flag — the call always
raises the timeout error; with `timeout_ms > 0` the timeout error is raised
iff the watchdog's timed wait expired before completion. -/
theorem system_timeout_contract (sr sa : List TimedAutomaton) (mode : RunningMode)
    (nthreads gfuel wfuel tfuel : Nat) (timeout_ms : Int) (expires : Bool)
    (hlen : sr.length = sa.length) :
    (timeout_ms < 0 →
      check_rtwbs_equivalence_system sr sa mode nthreads gfuel wfuel tfuel timeout_ms expires ≠
        some (Except.error ())) ∧
    (timeout_ms = 0 →
      check_rtwbs_equivalence_system sr sa mode nthreads gfuel wfuel tfuel timeout_ms expires =
        some (Except.error ())) ∧
    (0 < timeout_ms →
      (check_rtwbs_equivalence_system sr sa mode nthreads gfuel wfuel tfuel timeout_ms expires =
          some (Except.error ()) ↔ expires = true)) := by
  refine ⟨?_, ?_, ?_⟩
  · intro ht
    exact system_uncancelled_no_err sr sa mode nthreads gfuel wfuel tfuel timeout_ms expires
      hlen (by rw [if_pos ht])
  · intro ht
    exact system_cancelled_err sr sa mode nthreads gfuel wfuel tfuel timeout_ms expires
      hlen (by rw [if_neg (by omega), if_pos ht])
  · intro ht
    cases he : expires with
    | true =>
      have h := system_cancelled_err sr sa mode nthreads gfuel wfuel tfuel timeout_ms expires
        hlen (by rw [if_neg (by omega), if_neg (by omega), he])
      rw [he] at h
      exact ⟨fun _ => rfl, fun _ => h⟩
    | false =>
      have h := system_uncancelled_no_err sr sa mode nthreads gfuel wfuel tfuel timeout_ms
        expires hlen (by rw [if_neg (by omega), if_neg (by omega), he])
      rw [he] at h
      exact ⟨fun hx => absurd hx h, fun hx => absurd hx (by simp)⟩

/-- Witness for the C8 theorem: singleton systems of `ta_one` with
`timeout_ms = 0` raise the timeout error. -/
theorem system_timeout_contract_witness :
    ([ta_one].length = [ta_one].length) ∧
    check_rtwbs_equivalence_system [ta_one] [ta_one] RunningMode.SERIAL 1 5 5 5 0 false =
      some (Except.error ()) :=
  ⟨rfl,
   (system_timeout_contract [ta_one] [ta_one] RunningMode.SERIAL 1 5 5 5 0 false rfl).2.1 rfl⟩


/-! ## C4: justification of the recorded zone-graph edges -/

theorem foldl_zone_length {α : Type} (f : Zone → α → Zone) (l : List α) (z : Zone)
    (h : ∀ w a, (f w a).length = w.length) : (l.foldl f z).length = z.length := by
  induction l generalizing z with
  | nil => rfl
  | cons a rest ih => rw [List.foldl_cons, ih, h]

theorem zset_length (dim : Nat) (z : Zone) (i j : Nat) (b : Bound) :
    (zset dim z i j b).length = z.length := List.length_set z _ b

theorem closeFW_length (dim : Nat) (z : Zone) : (closeFW dim z).length = z.length := by
  unfold closeFW
  refine foldl_zone_length _ _ _ (fun w k => ?_)
  refine foldl_zone_length _ _ _ (fun w i => ?_)
  refine foldl_zone_length _ _ _ (fun w j => ?_)
  exact zset_length _ _ _ _ _

theorem constrain1_length (dim : Nat) (z : Zone) (i j : Nat) (b : Bound) :
    (constrain1 dim z i j b).length = z.length := by
  unfold constrain1
  rw [closeFW_length, zset_length]

theorem dbm_up_length (dim : Nat) (z : Zone) : (dbm_up dim z).length = z.length := by
  unfold dbm_up
  refine foldl_zone_length _ _ _ (fun w i => ?_)
  split
  · rfl
  · exact zset_length _ _ _ _ _

theorem dbm_updateValue_length (dim : Nat) (z : Zone) (x : Nat) :
    (dbm_updateValue dim z x).length = z.length := by
  unfold dbm_updateValue
  refine foldl_zone_length _ _ _ (fun w j => ?_)
  dsimp only
  rw [zset_length, zset_length]

theorem dbm_extrapolateMaxBounds_length (dim : Nat) (z : Zone) (m : List Int) :
    (dbm_extrapolateMaxBounds dim z m).length = z.length := by
  unfold dbm_extrapolateMaxBounds
  dsimp only
  rw [closeFW_length]
  refine foldl_zone_length _ _ _ (fun w i => ?_)
  refine foldl_zone_length _ _ _ (fun w j => ?_)
  dsimp only
  split
  · rfl
  · split
    · rfl
    · split
      · exact zset_length _ _ _ _ _
      · split
        · exact zset_length _ _ _ _ _
        · exact zset_length _ _ _ _ _

theorem closeOrEmpty_len (dim : Nat) (z : Zone) :
    closeOrEmpty dim z = [] ∨ (closeOrEmpty dim z).length = z.length := by
  unfold closeOrEmpty
  dsimp only
  split
  · exact Or.inl rfl
  · exact Or.inr (closeFW_length _ _)

theorem apply_invariants_len (ta : TimedAutomaton) (z : Zone) (loc : Int) :
    ta.apply_invariants z loc = [] ∨ (ta.apply_invariants z loc).length = z.length := by
  unfold TimedAutomaton.apply_invariants
  dsimp only
  rcases closeOrEmpty_len ta.dimension
      ((match ta.locations.find? (fun (l : Location) => decide (l.id = loc)) with
        | some l => l.invariants
        | none => ([] : List DbmConstraint)).foldl
        (fun w (inv : DbmConstraint) => constrain1 ta.dimension w inv.i inv.j inv.value) z) with
      h | h
  · exact Or.inl h
  · right
    rw [h]
    exact foldl_zone_length _ _ _ (fun w inv => constrain1_length _ _ _ _ _)

theorem time_elapse_len (ta : TimedAutomaton) (z : Zone) :
    ta.time_elapse z = [] ∨ (ta.time_elapse z).length = ta.dimension * ta.dimension := by
  unfold TimedAutomaton.time_elapse
  dsimp only
  split
  · exact Or.inl rfl
  · right
    next h =>
    split
    · rw [dbm_extrapolateMaxBounds_length, dbm_up_length]
      omega
    · rw [dbm_up_length]
      omega

theorem apply_transition_len (ta : TimedAutomaton) (z : Zone) (t : Transition) :
    ta.apply_transition z t = [] ∨
      (ta.apply_transition z t).length = ta.dimension * ta.dimension := by
  unfold TimedAutomaton.apply_transition
  dsimp only
  split
  · exact Or.inl rfl
  · next h1 =>
    split
    · exact Or.inl rfl
    · split
      · exact Or.inl rfl
      · rcases closeOrEmpty_len ta.dimension
            (t.resets.foldl (fun w c => dbm_updateValue ta.dimension w c)
              (t.guards.foldl (fun w g => constrain1 ta.dimension w g.i g.j g.value) z)) with
            h | h
        · exact Or.inl h
        · right
          rw [h, foldl_zone_length _ _ _ (fun w c => dbm_updateValue_length _ _ _),
              foldl_zone_length _ _ _ (fun w g => constrain1_length _ _ _ _ _)]
          omega

theorem successor_zone_code_len (ta : TimedAutomaton) (s : ZoneState) (t : Transition)
    (h : successor_zone_code ta s t ≠ []) :
    (successor_zone_code ta s t).length = ta.dimension * ta.dimension := by
  unfold successor_zone_code at *
  dsimp only at *
  rcases apply_invariants_len ta
      (ta.apply_transition (ta.time_elapse (ta.apply_invariants s.zone s.location_id)) t)
      t.to_location with h1 | h1
  · exact absurd h1 h
  · rw [h1]
    rcases apply_transition_len ta
        (ta.time_elapse (ta.apply_invariants s.zone s.location_id)) t with h2 | h2
    · exfalso
      rw [h2] at h1 h
      simp only [List.length_nil] at h1
      exact h (List.length_eq_zero.mp h1)
    · exact h2

theorem getD_mem_lt {α : Type} (l : List (List α)) (i : Nat) (a : α)
    (h : a ∈ l.getD i []) : i < l.length := by
  by_contra hge
  rw [List.getD_eq_default] at h
  · exact absurd h (List.not_mem_nil a)
  · omega

theorem findIdx?_some_spec {α : Type} [Inhabited α] (p : α → Bool) :
    ∀ (l : List α) (i0 i : Nat), List.findIdx? p l i0 = some i →
      i0 ≤ i ∧ i - i0 < l.length ∧ p (l.getD (i - i0) default) = true := by
  intro l
  induction l with
  | nil => intro i0 i h; simp [List.findIdx?] at h
  | cons a rest ih =>
    intro i0 i h
    rw [List.findIdx?] at h
    by_cases hp : p a
    · rw [if_pos hp] at h
      injection h with h
      subst h
      refine ⟨Nat.le_refl _, by simp, ?_⟩
      rw [Nat.sub_self]
      simpa using hp
    · rw [if_neg hp] at h
      obtain ⟨h1, h2, h3⟩ := ih (i0 + 1) i h
      refine ⟨by omega, by simp only [List.length_cons]; omega, ?_⟩
      have he : i - i0 = (i - (i0 + 1)) + 1 := by omega
      rw [he, List.getD_cons_succ]
      exact h3

theorem add_state_spec (ta : TimedAutomaton) (g : ZoneGraph) (loc : Int) (zone : Zone)
    (hz : zone.length = ta.dimension * ta.dimension) :
    (((add_state ta g loc zone).1.states = g.states ∧
        (add_state ta g loc zone).1.zone_transitions = g.zone_transitions) ∨
      ((add_state ta g loc zone).1.states =
          g.states ++ [(⟨loc, zone, ta.dimension⟩ : ZoneState)] ∧
        (add_state ta g loc zone).1.zone_transitions = g.zone_transitions ++ [[]])) ∧
    0 ≤ (add_state ta g loc zone).2 ∧
    (add_state ta g loc zone).2.toNat < (add_state ta g loc zone).1.states.length ∧
    (add_state ta g loc zone).1.states.getD (add_state ta g loc zone).2.toNat default =
      (⟨loc, zone, ta.dimension⟩ : ZoneState) := by
  unfold add_state
  rw [if_neg (by omega : ¬zone.length ≠ ta.dimension * ta.dimension)]
  dsimp only
  cases hidx : g.states.findIdx?
      (fun s => decide (s = (⟨loc, zone, ta.dimension⟩ : ZoneState))) with
  | some i =>
    simp only [hidx]
    obtain ⟨h1, h2, h3⟩ := findIdx?_some_spec _ g.states 0 i hidx
    rw [Nat.sub_zero] at h2 h3
    refine ⟨Or.inl ⟨trivial, trivial⟩, by omega, ?_, ?_⟩
    · rw [Int.toNat_natCast]
      exact h2
    · rw [Int.toNat_natCast]
      exact of_decide_eq_true h3
  | none =>
    simp only [hidx]
    refine ⟨Or.inr ⟨trivial, trivial⟩, by omega, ?_, ?_⟩
    · rw [Int.toNat_natCast, List.length_append]
      simp
    · rw [Int.toNat_natCast, List.getD_eq_getElem?_getD,
        List.getElem?_append_right (Nat.le_refl _), Nat.sub_self]
      rfl

theorem edge_ok_mono (ta : TimedAutomaton) (g g' : ZoneGraph) (i : Nat) (j : Int)
    (tail : List ZoneState) (hs : g'.states = g.states ++ tail)
    (hi : i < g.states.length) (he : edge_ok ta g i j) : edge_ok ta g' i j := by
  obtain ⟨t, ht, h1, h2, h3, h4, h5⟩ := he
  have hgi : g'.states.getD i default = g.states.getD i default := by
    rw [hs]
    exact List.getD_append _ _ _ _ hi
  have hgj : g'.states.getD j.toNat default = g.states.getD j.toNat default := by
    rw [hs]
    exact List.getD_append _ _ _ _ h4
  refine ⟨t, ?_, ?_, ?_, h3, ?_, ?_⟩
  · rw [hgi]; exact ht
  · rw [hgi]; exact h1
  · rw [hgi]; exact h2
  · rw [hs, List.length_append]; omega
  · rw [hgj, hgi]; exact h5

theorem getD_set_self {α : Type} (l : List α) (n : Nat) (a d : α) (h : n < l.length) :
    (l.set n a).getD n d = a := by
  rw [List.getD_eq_getElem?_getD, List.getElem?_set_self]
  · rfl
  · exact h

theorem getD_set_ne {α : Type} (l : List α) (n m : Nat) (a d : α) (h : n ≠ m) :
    (l.set n a).getD m d = l.getD m d := by
  rw [List.getD_eq_getElem?_getD, List.getElem?_set_ne h, ← List.getD_eq_getElem?_getD]

theorem get?_some_lt {α : Type} (l : List α) (n : Nat) (a : α) (h : l.get? n = some a) :
    n < l.length := by
  rw [List.get?_eq_getElem?] at h
  exact (List.getElem?_eq_some.mp h).1

theorem get?_some_getD {α : Type} (l : List α) (n : Nat) (a d : α) (h : l.get? n = some a) :
    l.getD n d = a := by
  rw [List.getD_eq_getElem?_getD, ← List.get?_eq_getElem?, h]
  rfl

theorem mem_getD_append_nil {α : Type} (l : List (List α)) (i : Nat) (a : α)
    (h : a ∈ (l ++ [[]]).getD i []) : a ∈ l.getD i [] := by
  by_cases hi : i < l.length
  · rwa [List.getD_append _ _ _ _ hi] at h
  · exfalso
    by_cases he : i = l.length
    · subst he
      rw [List.getD_eq_getElem?_getD, List.getElem?_append_right (Nat.le_refl _),
        Nat.sub_self] at h
      simp at h
    · rw [List.getD_eq_default] at h
      · exact absurd h (List.not_mem_nil a)
      · rw [List.length_append]
        simp only [List.length_cons, List.length_nil]
        omega

theorem isEmpty_false_ne {α : Type} (l : List α) (h : ¬l.isEmpty = true) : l ≠ [] := by
  intro he
  subst he
  exact h rfl

theorem explore_state_graph_ok (ta : TimedAutomaton) (g : ZoneGraph) (id : Nat)
    (hg : graph_ok ta g) : graph_ok ta (explore_state ta g id) := by
  unfold explore_state
  cases hgs : g.states.get? id with
  | none => exact hg
  | some s =>
    dsimp only
    split
    · exact hg
    · split
      · exact hg
      · have hid : id < g.states.length := get?_some_lt _ _ _ hgs
        have hgds : g.states.getD id default = s := get?_some_getD _ _ _ _ hgs
        refine (foldl_invariant _
          (fun g2 => graph_ok ta g2 ∧ ∃ tail, g2.states = g.states ++ tail) _ _
          ⟨hg, [], (List.append_nil _).symm⟩ ?_).1
        intro g' t ht hP
        obtain ⟨hok, tail, htail⟩ := hP
        split
        case isFalse => exact ⟨hok, tail, htail⟩
        case isTrue henabled =>
        split
        case isTrue => exact ⟨hok, tail, htail⟩
        case isFalse hsne =>
        split
        case isTrue => exact ⟨hok, tail, htail⟩
        case isFalse hfne =>
        set F := ta.apply_invariants
          (ta.apply_transition (ta.time_elapse (ta.apply_invariants s.zone s.location_id)) t)
          t.to_location with hF
        have hfz_ne : F ≠ [] := isEmpty_false_ne _ hfne
        have hsz_ne :
            ta.apply_transition (ta.time_elapse (ta.apply_invariants s.zone s.location_id)) t ≠
              [] := isEmpty_false_ne _ hsne
        have hfz_len : F.length = ta.dimension * ta.dimension := by
          rw [hF]
          rcases apply_invariants_len ta
              (ta.apply_transition (ta.time_elapse (ta.apply_invariants s.zone s.location_id)) t)
              t.to_location with h | h
          · rw [hF] at hfz_ne
            exact absurd h hfz_ne
          · rw [h]
            rcases apply_transition_len ta
                (ta.time_elapse (ta.apply_invariants s.zone s.location_id)) t with h2 | h2
            · exact absurd h2 hsz_ne
            · exact h2
        obtain ⟨hshape, hpos, hlt, hgd⟩ := add_state_spec ta g' t.to_location F hfz_len
        have hlen21 : g'.zone_transitions.length = g'.states.length := hok.2.1
        have huni : (∃ tl, (add_state ta g' t.to_location F).1.states = g'.states ++ tl) ∧
            (add_state ta g' t.to_location F).1.zone_transitions.length =
              (add_state ta g' t.to_location F).1.states.length ∧
            (∀ (i' : Nat) (j' : Int),
              j' ∈ (add_state ta g' t.to_location F).1.zone_transitions.getD i' [] →
                j' ∈ g'.zone_transitions.getD i' []) ∧
            (∀ st, st ∈ (add_state ta g' t.to_location F).1.states →
              st.dimension = ta.dimension ∧
                st.zone.length = ta.dimension * ta.dimension) := by
          rcases hshape with ⟨hs1, hz1⟩ | ⟨hs1, hz1⟩
          · refine ⟨⟨[], by rw [hs1, List.append_nil]⟩, by rw [hs1, hz1, hlen21], ?_, ?_⟩
            · intro i' j' hj'
              rwa [hz1] at hj'
            · intro st hst
              rw [hs1] at hst
              exact hok.1 st hst
          · refine ⟨⟨[⟨t.to_location, F, ta.dimension⟩], hs1⟩, ?_, ?_, ?_⟩
            · rw [hs1, hz1, List.length_append, List.length_append, hlen21]
              rfl
            · intro i' j' hj'
              rw [hz1] at hj'
              exact mem_getD_append_nil _ _ _ hj'
            · intro st hst
              rw [hs1] at hst
              rcases List.mem_append.mp hst with h | h
              · exact hok.1 st h
              · have hst2 := List.mem_singleton.mp h
                subst hst2
                exact ⟨rfl, hfz_len⟩
        obtain ⟨tl, htl⟩ := huni.1
        have hidzt : id < (add_state ta g' t.to_location F).1.zone_transitions.length := by
          rw [huni.2.1, htl, List.length_append, htail, List.length_append]
          omega
        have hidst : id < g'.states.length := by
          rw [htail, List.length_append]
          omega
        refine ⟨⟨?_, ?_, ?_⟩, ⟨tail ++ tl, ?_⟩⟩
        · exact huni.2.2.2
        · dsimp only
          rw [List.length_set]
          exact huni.2.1
        · intro i' j' hj'
          dsimp only at hj'
          by_cases hii : i' = id
          · subst hii
            rw [getD_set_self _ _ _ _ hidzt] at hj'
            rcases List.mem_append.mp hj' with hold | hnew
            · have hj2 := huni.2.2.1 i' j' hold
              have he := hok.2.2 i' j' hj2
              exact edge_ok_mono ta g' _ i' j' tl htl hidst he
            · have hje := List.mem_singleton.mp hnew
              subst hje
              have hgd2 : (add_state ta g' t.to_location F).1.states.getD i' default = s := by
                rw [htl, List.getD_append _ _ _ _ hidst, htail,
                  List.getD_append _ _ _ _ hid]
                exact hgds
              refine ⟨t, ?_, ?_, ?_, hpos, hlt, ?_⟩
              · show t ∈ ta.get_outgoing_transitions _
                rw [hgd2]
                exact ht
              · show ta.is_transition_enabled _ t = true
                rw [hgd2]
                exact henabled
              · show successor_zone_code ta _ t ≠ []
                rw [hgd2]
                exact hfz_ne
              · show (add_state ta g' t.to_location F).1.states.getD _ default = _
                rw [hgd]
                rw [hgd2]
                rfl
          · have hii2 : id ≠ i' := fun h => hii h.symm
            rw [getD_set_ne _ _ _ _ _ hii2] at hj'
            have hj2 := huni.2.2.1 i' j' hj'
            have he := hok.2.2 i' j' hj2
            have hi' : i' < g'.states.length := by
              rw [← hlen21]
              exact getD_mem_lt _ _ _ hj2
            exact edge_ok_mono ta g' _ i' j' tl htl hi' he
        · dsimp only
          rw [htl, htail, List.append_assoc]

theorem zg_loop_graph_ok (ta : TimedAutomaton) (ms : Nat) :
    ∀ (fuel : Nat) (g : ZoneGraph), graph_ok ta g → graph_ok ta (zg_loop ta ms fuel g) := by
  intro fuel
  induction fuel with
  | zero => intro g h; exact h
  | succ n ih =>
    intro g h
    unfold zg_loop
    cases hw : g.waiting with
    | nil => exact h
    | cons id rest =>
      dsimp only
      split
      · exact h
      · exact ih _ (explore_state_graph_ok ta _ id h)

theorem build_graph_ok (ta : TimedAutomaton) (fuel : Nat) :
    graph_ok ta (build_graph ta fuel) := by
  unfold build_graph construct_zone_graph
  dsimp only
  apply zg_loop_graph_ok
  have hlen : ¬((dbm_init ta.dimension).length ≠ ta.dimension * ta.dimension) := by
    simp [dbm_init]
  unfold add_state
  rw [if_neg hlen]
  show graph_ok ta
    ⟨[⟨0, dbm_init ta.dimension, ta.dimension⟩], [[]], [0]⟩
  refine ⟨?_, rfl, ?_⟩
  · intro st hst
    have h2 := List.mem_singleton.mp hst
    subst h2
    exact ⟨rfl, by simp [dbm_init]⟩
  · intro i j hj
    exfalso
    cases i with
    | zero => simp at hj
    | succ n =>
      rw [List.getD_cons_succ] at hj
      simp at hj

/-- Counterexample to claim C4: `ta_inv` carries the invariant `x ≤ 5` on its
initial location and a single transition guarded by `x ≥ 10`.  Its constructed
zone graph records the edge `0 → 1` (with state 1 carrying the non-empty zone
`x0 - x1 ≤ -10`), but the pipeline of the claim — which re-applies the source
location's invariant after the delay — maps state 0 under the automaton's
only transition to the empty zone, so the recorded successor is not the
non-empty result of the claimed pipeline. -/
theorem zone_graph_pipeline_counterexample :
    (build_graph ta_inv 10).zone_transitions = [[1], []] ∧
    (build_graph ta_inv 10).states.getD 1 default =
      (⟨1, [Bound.bnd false 0, Bound.bnd false (-10), Bound.inf, Bound.bnd false 0], 2⟩ :
        ZoneState) ∧
    ta_inv.transitions = [tr_inv] ∧
    successor_zone_claim ta_inv ((build_graph ta_inv 10).states.getD 0 default) tr_inv = [] :=
  ⟨by decide, by decide, by decide, by decide⟩

/-- C4 (amended): after `construct_zone_graph`, every successor `j` recorded in
the adjacency list of state `i` is justified by the pipeline the code runs —
apply the source location's invariants, let time elapse (`up` followed by
max-bounds extrapolation when per-clock bounds exist) with no re-application of
the source invariants after the delay, check the transition enabled, apply its
guards and resets, then the target location's invariants, with
canonicalisation at each step: some enabled outgoing transition of state `i`
produces a non-empty zone whose stored form is exactly state `j`. -/
theorem zone_graph_edges_amended (ta : TimedAutomaton) (fuel i : Nat) (j : Int)
    (hj : j ∈ (build_graph ta fuel).zone_transitions.getD i []) :
    edge_ok ta (build_graph ta fuel) i j :=
  (build_graph_ok ta fuel).2.2 i j hj

/-- Witness for the amended C4 theorem: the edge `0 → 1` of the zone graph of
`ta_inv` is pipeline-justified. -/
theorem zone_graph_edges_amended_witness :
    1 ∈ (build_graph ta_inv 10).zone_transitions.getD 0 [] ∧
    edge_ok ta_inv (build_graph ta_inv 10) 0 1 :=
  ⟨by decide, zone_graph_edges_amended ta_inv 10 0 1 (by decide)⟩

theorem ble_refl_bound (b : Bound) : b.ble b = true := by
  cases b with
  | inf => rfl
  | bnd s n => simp [Bound.ble]

theorem dbm_relation_refl (dim : Nat) (z : Zone) : dbm_relation dim z z = DbmRel.equal := by
  unfold dbm_relation
  simp [List.all_eq_true, ble_refl_bound]

theorem timing_ok_refl (ta : TimedAutomaton) (z : ZoneState) (t : Transition)
    (h1 : ta.apply_invariants z.zone z.location_id ≠ [])
    (h2 : ta.time_elapse (ta.apply_invariants z.zone z.location_id) ≠ [])
    (h3 : ta.apply_invariants
        (ta.time_elapse (ta.apply_invariants z.zone z.location_id)) z.location_id ≠ [])
    (hs : t.has_synchronization = true → t.is_sender = true ∨ t.is_receiver = true) :
    timing_ok ta z t ta z t = true := by
  have e1 := List.isEmpty_eq_false.mpr h1
  have e2 := List.isEmpty_eq_false.mpr h2
  have e3 := List.isEmpty_eq_false.mpr h3
  unfold timing_ok
  simp only [e1, e2, e3, Bool.false_eq_true, if_false]
  set G := closeFW ta.dimension
    (t.guards.foldl (fun w g => constrain1 ta.dimension w g.i g.j g.value)
      (ta.apply_invariants
        (ta.time_elapse (ta.apply_invariants z.zone z.location_id)) z.location_id)) with hG
  have hrel : dbm_relation ta.dimension G G = DbmRel.equal := dbm_relation_refl _ _
  cases hE : dbm_isEmptyB ta.dimension G
  · simp only [hE, hrel, Bool.not_false, Bool.and_self, if_true]
    cases hsy : t.has_synchronization <;> cases hs1 : t.is_sender <;>
      cases hr1 : t.is_receiver <;> simp_all
  · simp [hE]
theorem assoc_get_mem {α β : Type} [DecidableEq α] :
    ∀ (c : List (α × β)) (k : α) (v : β), assoc_get c k = some v → (k, v) ∈ c := by
  intro c
  induction c with
  | nil => intro k v h; cases h
  | cons e rest ih =>
    obtain ⟨k', v'⟩ := e
    intro k v h
    unfold assoc_get at h
    by_cases he : k' = k
    · rw [if_pos he] at h
      injection h with h
      subst he
      subst h
      exact List.mem_cons_self _ _
    · rw [if_neg he] at h
      exact List.mem_cons_of_mem _ (ih k v h)

theorem assoc_get_extend {α β : Type} [DecidableEq α] :
    ∀ (c tail : List (α × β)) (k : α) (v : β),
      assoc_get c k = some v → assoc_get (c ++ tail) k = some v := by
  intro c
  induction c with
  | nil => intro tail k v h; cases h
  | cons e rest ih =>
    obtain ⟨k', v'⟩ := e
    intro tail k v h
    rw [List.cons_append]
    unfold assoc_get at h ⊢
    by_cases he : k' = k
    · rw [if_pos he] at h ⊢
      exact h
    · rw [if_neg he] at h ⊢
      exact ih tail k v h

theorem weak_cached_extend (cancel : Bool) (tg : TAG) (s : SRef) (a : String)
    (c : Cache) (f : Nat) :
    ∃ tail, (weak_cached cancel tg s a c f).2 = c ++ tail := by
  unfold weak_cached
  dsimp only
  cases h : assoc_get c ((tg.deref s).location_id, a) with
  | some v => exact ⟨[], (List.append_nil _).symm⟩
  | none => exact ⟨_, rfl⟩

theorem weak_cached_get (cancel : Bool) (tg : TAG) (s : SRef) (a : String)
    (c : Cache) (f : Nat) :
    assoc_get (weak_cached cancel tg s a c f).2 ((tg.deref s).location_id, a) =
      some (weak_cached cancel tg s a c f).1 := by
  unfold weak_cached
  dsimp only
  cases h : assoc_get c ((tg.deref s).location_id, a) with
  | some v => exact h
  | none => exact assoc_get_append_of_none c _ _ h

theorem find_zone_state_spec (tg : TAG) (loc : Int) (z : Zone) (idx : Nat)
    (h : find_zone_state tg loc z = some idx) : idx < tg.g.states.length := by
  unfold find_zone_state at h
  have h2 := findIdx?_some_spec _ tg.g.states 0 idx h
  omega

theorem weak_edge_target_lt (tg : TAG) (zs : ZoneState) (tr : Transition) (idx : Nat)
    (h : weak_edge_target tg zs tr = some idx) : idx < tg.g.states.length := by
  unfold weak_edge_target at h
  dsimp only at h
  split at h
  · cases h
  · split at h
    · cases h
    · split at h
      · cases h
      · split at h
        · cases h
        · split at h
          · cases h
          · exact find_zone_state_spec tg _ _ idx h
theorem tau_loop_valid (tg : TAG) :
    ∀ (fuel : Nat) (q visited closure : List SRef),
      (∀ x ∈ q, sref_ok tg x) → (∀ x ∈ closure, sref_ok tg x) →
      ∀ x ∈ tau_loop false tg fuel q visited closure, sref_ok tg x := by
  intro fuel
  induction fuel with
  | zero => intro q visited closure hq hc x hx; exact hc x hx
  | succ n ih =>
    intro q visited closure hq hc x hx
    cases q with
    | nil => exact hc x hx
    | cons z rest =>
      unfold tau_loop at hx
      simp only [Bool.false_eq_true, if_false] at hx
      have hstep : ∀ y ∈ ((tg.ta.get_outgoing_transitions (tg.deref z).location_id).foldl
          (fun (acc : List SRef × List SRef) tr =>
            if is_tau tr then
              match weak_edge_target tg (tg.deref z) tr with
              | some idx =>
                if SRef.arena idx ∈ acc.2 then acc
                else (acc.1 ++ [SRef.arena idx], acc.2 ++ [SRef.arena idx])
              | none => acc
            else acc) (rest, visited)).1, sref_ok tg y := by
        refine foldl_invariant _ (fun (acc : List SRef × List SRef) => ∀ y ∈ acc.1, sref_ok tg y) _ _ ?_ ?_
        · intro y hy2
          exact hq y (List.mem_cons_of_mem _ hy2)
        · intro acc tr htr hacc
          dsimp only
          split
          · cases hw : weak_edge_target tg (tg.deref z) tr with
            | some idx =>
              simp only [hw]
              split
              · exact hacc
              · intro y hy
                rcases List.mem_append.mp hy with h | h
                · exact hacc y h
                · have h2 := List.mem_singleton.mp h
                  subst h2
                  exact ⟨idx, rfl, weak_edge_target_lt tg _ tr idx hw⟩
            | none =>
              simp only [hw]
              exact hacc
          · exact hacc
      have hcl : ∀ y ∈ closure ++ [z], sref_ok tg y := by
        intro y hy
        rcases List.mem_append.mp hy with h | h
        · exact hc y h
        · have h2 := List.mem_singleton.mp h
          subst h2
          exact hq y (List.mem_cons_self _ _)
      exact ih _ _ _ hstep hcl x hx

theorem tau_closure_valid (tg : TAG) (fuel : Nat) (i : Nat) (hi : i < tg.g.states.length) :
    ∀ x ∈ tau_closure_raw false tg (SRef.arena i) fuel, sref_ok tg x := by
  intro x hx
  unfold tau_closure_raw at hx
  refine tau_loop_valid tg fuel _ _ _ ?_ ?_ x hx
  · intro y hy
    exact ⟨i, List.mem_singleton.mp hy, hi⟩
  · intro y hy
    simp at hy

theorem dedupGo_subset : ∀ (l seen : List SRef) (x : SRef), x ∈ dedupGo seen l → x ∈ l := by
  intro l
  induction l with
  | nil =>
    intro seen x hx
    simp [dedupGo] at hx
  | cons y ys ih =>
    intro seen x hx
    unfold dedupGo at hx
    by_cases hy : y ∈ seen
    · rw [if_pos hy] at hx
      exact List.mem_cons_of_mem _ (ih seen x hx)
    · rw [if_neg hy] at hx
      rcases List.mem_cons.mp hx with h | h
      · subst h
        exact List.mem_cons_self _ _
      · exact List.mem_cons_of_mem _ (ih (y :: seen) x h)

theorem weak_raw_valid (tg : TAG) (i : Nat) (a : String) (fuel : Nat)
    (hi : i < tg.g.states.length) :
    ∀ x ∈ weak_observable_successors_raw false tg (SRef.arena i) a fuel, sref_ok tg x := by
  intro x hx
  unfold weak_observable_successors_raw at hx
  dsimp only at hx
  have hx2 := dedupGo_subset _ _ _ hx
  refine foldl_invariant _ (fun (res : List SRef) => ∀ y ∈ res, sref_ok tg y) _ _ ?_ ?_ x hx2
  · intro y hy
    simp at hy
  · intro res z hz hres2
    refine foldl_invariant _ (fun (res : List SRef) => ∀ y ∈ res, sref_ok tg y) _ _ hres2 ?_
    intro res2 tr htr hres3
    dsimp only
    split
    · cases hw : weak_edge_target tg (tg.deref z) tr with
      | some mid =>
        simp only [hw]
        intro y hy
        rcases List.mem_append.mp hy with h | h
        · exact hres3 y h
        · exact tau_closure_valid tg fuel mid (weak_edge_target_lt tg _ tr mid hw) y h
      | none =>
        simp only [hw]
        exact hres3
    · exact hres3

theorem weak_cached_valid (tg : TAG) (i : Nat) (a : String) (c : Cache) (f : Nat)
    (hi : i < tg.g.states.length) (hc : cache_ok tg c) :
    (∀ x ∈ (weak_cached false tg (SRef.arena i) a c f).1, sref_ok tg x) ∧
    cache_ok tg (weak_cached false tg (SRef.arena i) a c f).2 := by
  unfold weak_cached
  dsimp only
  cases h : assoc_get c ((tg.deref (SRef.arena i)).location_id, a) with
  | some v =>
    refine ⟨?_, hc⟩
    intro x hx
    exact hc _ (assoc_get_mem c _ v h) x hx
  | none =>
    refine ⟨?_, ?_⟩
    · exact weak_raw_valid tg i a f hi
    · intro e he
      rcases List.mem_append.mp he with h2 | h2
      · exact hc e h2
      · have h3 := List.mem_singleton.mp h2
        subst h3
        exact weak_raw_valid tg i a f hi
theorem find_supporting_f_diag (tg : TAG) (rel : List PairKey) (succs : List SRef)
    (hne : succs ≠ [])
    (hval : ∀ x ∈ succs, ∃ idx, x = SRef.arena idx ∧
      (⟨(idx : Int), (idx : Int)⟩ : PairKey) ∈ rel) :
    ∃ supp, find_supporting_f tg tg rel succs succs = some supp := by
  cases hfs : find_supporting_f tg tg rel succs succs with
  | some supp => exact ⟨supp, rfl⟩
  | none =>
    exfalso
    unfold find_supporting_f at hfs
    obtain ⟨s0, rest, rfl⟩ : ∃ s0 rest, succs = s0 :: rest := by
      cases succs with
      | nil => exact absurd rfl hne
      | cons a b => exact ⟨a, b, rfl⟩
    rw [List.findSome?_eq_none_iff] at hfs
    have h0 := hfs s0 (List.mem_cons_self _ _)
    rw [List.findSome?_eq_none_iff] at h0
    have h1 := h0 s0 (List.mem_filter.mpr
      ⟨List.mem_cons_self _ _, decide_eq_true rfl⟩)
    obtain ⟨idx, hxe, hmem⟩ := hval s0 (List.mem_cons_self _ _)
    rw [hxe] at h1
    rw [show tg.get_state_id (SRef.arena idx) = (idx : Int) from rfl] at h1
    rw [if_pos hmem] at h1
    cases h1

theorem find_supporting_b_diag (tg : TAG) (rel : List PairKey) (succs : List SRef)
    (hne : succs ≠ [])
    (hval : ∀ x ∈ succs, ∃ idx, x = SRef.arena idx ∧
      (⟨(idx : Int), (idx : Int)⟩ : PairKey) ∈ rel) :
    ∃ supp, find_supporting_b tg tg rel succs succs = some supp := by
  cases hfs : find_supporting_b tg tg rel succs succs with
  | some supp => exact ⟨supp, rfl⟩
  | none =>
    exfalso
    unfold find_supporting_b at hfs
    obtain ⟨s0, rest, rfl⟩ : ∃ s0 rest, succs = s0 :: rest := by
      cases succs with
      | nil => exact absurd rfl hne
      | cons a b => exact ⟨a, b, rfl⟩
    rw [List.findSome?_eq_none_iff] at hfs
    have h0 := hfs s0 (List.mem_cons_self _ _)
    rw [List.findSome?_eq_none_iff] at h0
    have h1 := h0 s0 (List.mem_filter.mpr
      ⟨List.mem_cons_self _ _, decide_eq_true rfl⟩)
    obtain ⟨idx, hxe, hmem⟩ := hval s0 (List.mem_cons_self _ _)
    rw [hxe] at h1
    rw [show tg.get_state_id (SRef.arena idx) = (idx : Int) from rfl] at h1
    rw [if_pos hmem] at h1
    cases h1
theorem match_abs_f_diag (tg : TAG) (i : Nat) (rel : List PairKey) (rt : Transition)
    (rSuccs : List SRef) (wfuel : Nat) :
    ∀ (l : List Transition) (cache : Cache),
      i < tg.g.states.length → pipeline_ok tg → sync_ok tg.ta → diag_sub tg rel →
      rt ∈ l → (∀ t ∈ l, t ∈ tg.ta.transitions) → is_tau rt = false →
      assoc_get cache ((tg.g.states.getD i default).location_id, rt.action) = some rSuccs →
      rSuccs ≠ [] → (∀ x ∈ rSuccs, sref_ok tg x) →
      (match_abs_f false tg tg ⟨(i : Int), (i : Int)⟩ rel rt rSuccs wfuel l cache).1 = true ∧
      (match_abs_f false tg tg ⟨(i : Int), (i : Int)⟩ rel rt rSuccs wfuel l cache).2.1 =
        cache := by
  intro l
  induction l with
  | nil =>
    intro cache hi hp hs hD hrt hl htau hkey hne hval
    simp at hrt
  | cons atr rest ih =>
    intro cache hi hp hs hD hrt hl htau hkey hne hval
    have hlr : ∀ t ∈ rest, t ∈ tg.ta.transitions :=
      fun t ht => hl t (List.mem_cons_of_mem _ ht)
    unfold match_abs_f
    dsimp only
    simp only [Int.toNat_natCast]
    split
    case isTrue c1 =>
      rcases List.mem_cons.mp hrt with heq | hrest
      · subst heq
        rw [htau] at c1
        exact absurd c1 Bool.false_ne_true
      · exact ih cache hi hp hs hD hrest hlr htau hkey hne hval
    case isFalse c1 =>
    split
    case isTrue c2 =>
      rcases List.mem_cons.mp hrt with heq | hrest
      · subst heq
        exact absurd rfl c2
      · exact ih cache hi hp hs hD hrest hlr htau hkey hne hval
    case isFalse c2 =>
    split
    case isTrue c3 =>
      rcases List.mem_cons.mp hrt with heq | hrest
      · subst heq
        exact absurd rfl c3
      · exact ih cache hi hp hs hD hrest hlr htau hkey hne hval
    case isFalse c3 =>
    split
    case isTrue c4 =>
      rcases List.mem_cons.mp hrt with heq | hrest
      · subst heq
        rcases c4.2 with h | h | h <;> exact absurd rfl h
      · exact ih cache hi hp hs hD hrest hlr htau hkey hne hval
    case isFalse c4 =>
      have hact : rt.action = atr.action := not_not.mp c2
      have hlook : assoc_get cache ((tg.deref (SRef.arena i)).location_id, atr.action) =
          some rSuccs := by
        rw [show tg.deref (SRef.arena i) = tg.g.states.getD i default from rfl, ← hact]
        exact hkey
      have hac : weak_cached false tg (SRef.arena i) atr.action cache wfuel =
          (rSuccs, cache) := by
        unfold weak_cached
        dsimp only
        rw [hlook]
      rw [hac]
      dsimp only
      simp only [List.isEmpty_eq_false.mpr hne, Bool.false_eq_true, if_false]
      rcases List.mem_cons.mp hrt with heq | hrest
      · subst heq
        obtain ⟨p1, p2, p3⟩ := hp i hi
        have htim : timing_ok tg.ta (tg.deref (SRef.arena i)) rt tg.ta
            (tg.deref (SRef.arena i)) rt = true :=
          timing_ok_refl tg.ta (tg.g.states.getD i default) rt p1 p2 p3
            (fun hsy => hs rt (hl rt (List.mem_cons_self _ _)) hsy)
        simp only [htim, Bool.not_true, Bool.false_eq_true, if_false]
        obtain ⟨supp, hsupp⟩ := find_supporting_f_diag tg rel rSuccs hne (fun x hx => by
          obtain ⟨idx, hxe, hlt⟩ := hval x hx
          exact ⟨idx, hxe, hD idx hlt⟩)
        rw [hsupp]
        exact ⟨rfl, rfl⟩
      · cases htim : timing_ok tg.ta (tg.deref (SRef.arena i)) rt tg.ta
            (tg.deref (SRef.arena i)) atr with
        | false =>
          simp only [htim, Bool.not_false, if_true]
          exact ih cache hi hp hs hD hrest hlr htau hkey hne hval
        | true =>
          simp only [htim, Bool.not_true, Bool.false_eq_true, if_false]
          split
          · exact ⟨rfl, rfl⟩
          · exact ih cache hi hp hs hD hrest hlr htau hkey hne hval
theorem forward_go_diag (tg : TAG) (i : Nat) (rel : List PairKey) (wfuel : Nat)
    (hi : i < tg.g.states.length) (hp : pipeline_ok tg) (hs : sync_ok tg.ta)
    (hD : diag_sub tg rel) :
    ∀ (l : List Transition) (cache : Cache) (deps : List (PairKey × PairKey)),
      (∀ t ∈ l, t ∈ tg.ta.get_outgoing_transitions
        ((tg.g.states.getD i default).location_id)) →
      cache_ok tg cache →
      (forward_go false tg tg ⟨(i : Int), (i : Int)⟩ rel wfuel l cache deps).1 = true ∧
      cache_ok tg (forward_go false tg tg ⟨(i : Int), (i : Int)⟩ rel wfuel l cache deps).2.1 := by
  intro l
  induction l with
  | nil =>
    intro cache deps hl hc
    exact ⟨rfl, hc⟩
  | cons rt rest ih =>
    intro cache deps hl hc
    have hlr : ∀ t ∈ rest, t ∈ tg.ta.get_outgoing_transitions
        ((tg.g.states.getD i default).location_id) :=
      fun t ht => hl t (List.mem_cons_of_mem _ ht)
    unfold forward_go
    dsimp only
    simp only [Int.toNat_natCast]
    split
    case isTrue c1 => exact ih cache deps hlr hc
    case isFalse c1 =>
      obtain ⟨hval, hcok⟩ := weak_cached_valid tg i rt.action cache wfuel hi hc
      cases hemp : (weak_cached false tg (SRef.arena i) rt.action cache wfuel).1.isEmpty with
      | true =>
        simp only [hemp, if_true]
        exact ih _ deps hlr hcok
      | false =>
        simp only [hemp, Bool.false_eq_true, if_false]
        rw [Bool.not_eq_true] at c1
        have hne : (weak_cached false tg (SRef.arena i) rt.action cache wfuel).1 ≠ [] :=
          List.isEmpty_eq_false.mp hemp
        have hkey : assoc_get (weak_cached false tg (SRef.arena i) rt.action cache wfuel).2
            ((tg.g.states.getD i default).location_id, rt.action) =
            some (weak_cached false tg (SRef.arena i) rt.action cache wfuel).1 :=
          weak_cached_get false tg (SRef.arena i) rt.action cache wfuel
        have hmab := match_abs_f_diag tg i rel rt
          (weak_cached false tg (SRef.arena i) rt.action cache wfuel).1 wfuel
          (tg.ta.get_outgoing_transitions ((tg.deref (SRef.arena i)).location_id))
          (weak_cached false tg (SRef.arena i) rt.action cache wfuel).2
          hi hp hs hD (hl rt (List.mem_cons_self _ _))
          (fun t ht => (List.mem_filter.mp ht).1) c1 hkey hne hval
        split
        next heq =>
          refine ih _ _ hlr ?_
          have h2 := hmab.2
          rw [heq] at h2
          dsimp only at h2
          rw [h2]
          exact hcok
        next heq =>
          exfalso
          have h1 := hmab.1
          rw [heq] at h1
          cases h1
theorem match_ref_b_diag (tg : TAG) (i : Nat) (rel : List PairKey) (atr : Transition)
    (aSuccs : List SRef) (wfuel : Nat) :
    ∀ (l : List Transition) (cache : Cache),
      i < tg.g.states.length → pipeline_ok tg → sync_ok tg.ta → diag_sub tg rel →
      atr ∈ l → (∀ t ∈ l, t ∈ tg.ta.transitions) → is_tau atr = false →
      assoc_get cache ((tg.g.states.getD i default).location_id, atr.action) = some aSuccs →
      aSuccs ≠ [] → (∀ x ∈ aSuccs, sref_ok tg x) →
      (match_ref_b false tg tg ⟨(i : Int), (i : Int)⟩ rel atr aSuccs wfuel l cache).1 = true ∧
      (match_ref_b false tg tg ⟨(i : Int), (i : Int)⟩ rel atr aSuccs wfuel l cache).2.1 =
        cache := by
  intro l
  induction l with
  | nil =>
    intro cache hi hp hs hD hrt hl htau hkey hne hval
    simp at hrt
  | cons rt rest ih =>
    intro cache hi hp hs hD hrt hl htau hkey hne hval
    have hlr : ∀ t ∈ rest, t ∈ tg.ta.transitions :=
      fun t ht => hl t (List.mem_cons_of_mem _ ht)
    unfold match_ref_b
    dsimp only
    simp only [Int.toNat_natCast]
    split
    case isTrue c1 =>
      rcases List.mem_cons.mp hrt with heq | hrest
      · subst heq
        rw [htau] at c1
        exact absurd c1 Bool.false_ne_true
      · exact ih cache hi hp hs hD hrest hlr htau hkey hne hval
    case isFalse c1 =>
    split
    case isTrue c2 =>
      rcases List.mem_cons.mp hrt with heq | hrest
      · subst heq
        exact absurd rfl c2
      · exact ih cache hi hp hs hD hrest hlr htau hkey hne hval
    case isFalse c2 =>
    split
    case isTrue c3 =>
      rcases List.mem_cons.mp hrt with heq | hrest
      · subst heq
        exact absurd rfl c3
      · exact ih cache hi hp hs hD hrest hlr htau hkey hne hval
    case isFalse c3 =>
    split
    case isTrue c4 =>
      rcases List.mem_cons.mp hrt with heq | hrest
      · subst heq
        rcases c4.2 with h | h | h <;> exact absurd rfl h
      · exact ih cache hi hp hs hD hrest hlr htau hkey hne hval
    case isFalse c4 =>
      have hact : atr.action = rt.action := not_not.mp c2
      have hlook : assoc_get cache ((tg.deref (SRef.arena i)).location_id, rt.action) =
          some aSuccs := by
        rw [show tg.deref (SRef.arena i) = tg.g.states.getD i default from rfl, ← hact]
        exact hkey
      have hac : weak_cached false tg (SRef.arena i) rt.action cache wfuel =
          (aSuccs, cache) := by
        unfold weak_cached
        dsimp only
        rw [hlook]
      rw [hac]
      dsimp only
      simp only [List.isEmpty_eq_false.mpr hne, Bool.false_eq_true, if_false]
      rcases List.mem_cons.mp hrt with heq | hrest
      · subst heq
        obtain ⟨p1, p2, p3⟩ := hp i hi
        have htim : timing_ok tg.ta (tg.deref (SRef.arena i)) atr tg.ta
            (tg.deref (SRef.arena i)) atr = true :=
          timing_ok_refl tg.ta (tg.g.states.getD i default) atr p1 p2 p3
            (fun hsy => hs atr (hl atr (List.mem_cons_self _ _)) hsy)
        simp only [htim, Bool.not_true, Bool.false_eq_true, if_false]
        obtain ⟨supp, hsupp⟩ := find_supporting_b_diag tg rel aSuccs hne (fun x hx => by
          obtain ⟨idx, hxe, hlt⟩ := hval x hx
          exact ⟨idx, hxe, hD idx hlt⟩)
        rw [hsupp]
        exact ⟨rfl, rfl⟩
      · cases htim : timing_ok tg.ta (tg.deref (SRef.arena i)) atr tg.ta
            (tg.deref (SRef.arena i)) rt with
        | false =>
          simp only [htim, Bool.not_false, if_true]
          exact ih cache hi hp hs hD hrest hlr htau hkey hne hval
        | true =>
          simp only [htim, Bool.not_true, Bool.false_eq_true, if_false]
          split
          · exact ⟨rfl, rfl⟩
          · exact ih cache hi hp hs hD hrest hlr htau hkey hne hval

theorem backward_go_diag (tg : TAG) (i : Nat) (rel : List PairKey) (wfuel : Nat)
    (hi : i < tg.g.states.length) (hp : pipeline_ok tg) (hs : sync_ok tg.ta)
    (hD : diag_sub tg rel) :
    ∀ (l : List Transition) (cache : Cache) (deps : List (PairKey × PairKey)),
      (∀ t ∈ l, t ∈ tg.ta.get_outgoing_transitions
        ((tg.g.states.getD i default).location_id)) →
      cache_ok tg cache →
      (backward_go false tg tg ⟨(i : Int), (i : Int)⟩ rel wfuel l cache deps).1 = true ∧
      cache_ok tg (backward_go false tg tg ⟨(i : Int), (i : Int)⟩ rel wfuel l cache deps).2.1 := by
  intro l
  induction l with
  | nil =>
    intro cache deps hl hc
    exact ⟨rfl, hc⟩
  | cons atr rest ih =>
    intro cache deps hl hc
    have hlr : ∀ t ∈ rest, t ∈ tg.ta.get_outgoing_transitions
        ((tg.g.states.getD i default).location_id) :=
      fun t ht => hl t (List.mem_cons_of_mem _ ht)
    unfold backward_go
    dsimp only
    simp only [Int.toNat_natCast]
    split
    case isTrue c1 => exact ih cache deps hlr hc
    case isFalse c1 =>
      obtain ⟨hval, hcok⟩ := weak_cached_valid tg i atr.action cache wfuel hi hc
      cases hemp : (weak_cached false tg (SRef.arena i) atr.action cache wfuel).1.isEmpty with
      | true =>
        simp only [hemp, if_true]
        exact ih _ deps hlr hcok
      | false =>
        simp only [hemp, Bool.false_eq_true, if_false]
        rw [Bool.not_eq_true] at c1
        have hne : (weak_cached false tg (SRef.arena i) atr.action cache wfuel).1 ≠ [] :=
          List.isEmpty_eq_false.mp hemp
        have hkey : assoc_get (weak_cached false tg (SRef.arena i) atr.action cache wfuel).2
            ((tg.g.states.getD i default).location_id, atr.action) =
            some (weak_cached false tg (SRef.arena i) atr.action cache wfuel).1 :=
          weak_cached_get false tg (SRef.arena i) atr.action cache wfuel
        have hmab := match_ref_b_diag tg i rel atr
          (weak_cached false tg (SRef.arena i) atr.action cache wfuel).1 wfuel
          (tg.ta.get_outgoing_transitions ((tg.deref (SRef.arena i)).location_id))
          (weak_cached false tg (SRef.arena i) atr.action cache wfuel).2
          hi hp hs hD (hl atr (List.mem_cons_self _ _))
          (fun t ht => (List.mem_filter.mp ht).1) c1 hkey hne hval
        split
        next heq =>
          refine ih _ _ hlr ?_
          have h2 := hmab.2
          rw [heq] at h2
          dsimp only at h2
          rw [h2]
          exact hcok
        next heq =>
          exfalso
          have h1 := hmab.1
          rw [heq] at h1
          cases h1
theorem validate_pair_diag (tg : TAG) (i : Nat) (rel : List PairKey) (wfuel : Nat)
    (cache : Cache) (hi : i < tg.g.states.length) (hp : pipeline_ok tg) (hs : sync_ok tg.ta)
    (hD : diag_sub tg rel) (hc : cache_ok tg cache) :
    (validate_pair false tg tg ⟨(i : Int), (i : Int)⟩ rel wfuel cache).1 = true ∧
    cache_ok tg (validate_pair false tg tg ⟨(i : Int), (i : Int)⟩ rel wfuel cache).2.1 := by
  unfold validate_pair
  dsimp only
  simp only [Int.toNat_natCast]
  have hfwd := forward_go_diag tg i rel wfuel hi hp hs hD
    (tg.ta.get_outgoing_transitions ((tg.deref (SRef.arena i)).location_id)) cache []
    (fun t ht => ht) hc
  split
  next heq =>
    exfalso
    have h1 := hfwd.1
    rw [heq] at h1
    cases h1
  next heq =>
    have h2 := hfwd.2
    rw [heq] at h2
    dsimp only at h2
    exact backward_go_diag tg i rel wfuel hi hp hs hD _ _ _ (fun t ht => ht) h2

theorem match_abs_f_cache_ok (tg : TAG) (pk : PairKey) (rel : List PairKey)
    (rt : Transition) (rSuccs : List SRef) (wfuel : Nat)
    (ha : pk.a.toNat < tg.g.states.length) :
    ∀ (l : List Transition) (cache : Cache), cache_ok tg cache →
      cache_ok tg (match_abs_f false tg tg pk rel rt rSuccs wfuel l cache).2.1 := by
  intro l
  induction l with
  | nil => intro cache hc; exact hc
  | cons atr rest ih =>
    intro cache hc
    unfold match_abs_f
    dsimp only
    split
    · exact ih cache hc
    · split
      · exact ih cache hc
      · split
        · exact ih cache hc
        · split
          · exact ih cache hc
          · have hcok := (weak_cached_valid tg pk.a.toNat atr.action cache wfuel ha hc).2
            split
            · exact ih _ hcok
            · split
              · exact ih _ hcok
              · split
                · exact hcok
                · exact ih _ hcok

theorem forward_go_cache_ok (tg : TAG) (pk : PairKey) (rel : List PairKey) (wfuel : Nat)
    (hr : pk.r.toNat < tg.g.states.length) (ha : pk.a.toNat < tg.g.states.length) :
    ∀ (l : List Transition) (cache : Cache) (deps : List (PairKey × PairKey)),
      cache_ok tg cache →
      cache_ok tg (forward_go false tg tg pk rel wfuel l cache deps).2.1 := by
  intro l
  induction l with
  | nil => intro cache deps hc; exact hc
  | cons rt rest ih =>
    intro cache deps hc
    unfold forward_go
    dsimp only
    split
    · exact ih cache deps hc
    · have hcok := (weak_cached_valid tg pk.r.toNat rt.action cache wfuel hr hc).2
      split
      · exact ih _ deps hcok
      · have hmok := match_abs_f_cache_ok tg pk rel rt
          (weak_cached false tg (SRef.arena pk.r.toNat) rt.action cache wfuel).1 wfuel ha
          (tg.ta.get_outgoing_transitions ((tg.deref (SRef.arena pk.a.toNat)).location_id))
          (weak_cached false tg (SRef.arena pk.r.toNat) rt.action cache wfuel).2 hcok
        split
        next heq =>
          refine ih _ _ ?_
          rw [heq] at hmok
          exact hmok
        next heq =>
          rw [heq] at hmok
          exact hmok

theorem match_ref_b_cache_ok (tg : TAG) (pk : PairKey) (rel : List PairKey)
    (atr : Transition) (aSuccs : List SRef) (wfuel : Nat)
    (hr : pk.r.toNat < tg.g.states.length) :
    ∀ (l : List Transition) (cache : Cache), cache_ok tg cache →
      cache_ok tg (match_ref_b false tg tg pk rel atr aSuccs wfuel l cache).2.1 := by
  intro l
  induction l with
  | nil => intro cache hc; exact hc
  | cons rt rest ih =>
    intro cache hc
    unfold match_ref_b
    dsimp only
    split
    · exact ih cache hc
    · split
      · exact ih cache hc
      · split
        · exact ih cache hc
        · split
          · exact ih cache hc
          · have hcok := (weak_cached_valid tg pk.r.toNat rt.action cache wfuel hr hc).2
            split
            · exact ih _ hcok
            · split
              · exact ih _ hcok
              · split
                · exact hcok
                · exact ih _ hcok

theorem backward_go_cache_ok (tg : TAG) (pk : PairKey) (rel : List PairKey) (wfuel : Nat)
    (hr : pk.r.toNat < tg.g.states.length) (ha : pk.a.toNat < tg.g.states.length) :
    ∀ (l : List Transition) (cache : Cache) (deps : List (PairKey × PairKey)),
      cache_ok tg cache →
      cache_ok tg (backward_go false tg tg pk rel wfuel l cache deps).2.1 := by
  intro l
  induction l with
  | nil => intro cache deps hc; exact hc
  | cons atr rest ih =>
    intro cache deps hc
    unfold backward_go
    dsimp only
    split
    · exact ih cache deps hc
    · have hcok := (weak_cached_valid tg pk.a.toNat atr.action cache wfuel ha hc).2
      split
      · exact ih _ deps hcok
      · have hmok := match_ref_b_cache_ok tg pk rel atr
          (weak_cached false tg (SRef.arena pk.a.toNat) atr.action cache wfuel).1 wfuel hr
          (tg.ta.get_outgoing_transitions ((tg.deref (SRef.arena pk.r.toNat)).location_id))
          (weak_cached false tg (SRef.arena pk.a.toNat) atr.action cache wfuel).2 hcok
        split
        next heq =>
          refine ih _ _ ?_
          rw [heq] at hmok
          exact hmok
        next heq =>
          rw [heq] at hmok
          exact hmok

theorem validate_pair_cache_ok (tg : TAG) (pk : PairKey) (rel : List PairKey) (wfuel : Nat)
    (cache : Cache) (hr : pk.r.toNat < tg.g.states.length)
    (ha : pk.a.toNat < tg.g.states.length) (hc : cache_ok tg cache) :
    cache_ok tg (validate_pair false tg tg pk rel wfuel cache).2.1 := by
  unfold validate_pair
  dsimp only
  split
  next heq =>
    have h := forward_go_cache_ok tg pk rel wfuel hr ha
      (tg.ta.get_outgoing_transitions ((tg.deref (SRef.arena pk.r.toNat)).location_id))
      cache [] hc
    rw [heq] at h
    exact h
  next heq =>
    have h := forward_go_cache_ok tg pk rel wfuel hr ha
      (tg.ta.get_outgoing_transitions ((tg.deref (SRef.arena pk.r.toNat)).location_id))
      cache [] hc
    rw [heq] at h
    exact backward_go_cache_ok tg pk rel wfuel hr ha _ _ _ h
theorem run_serial_diag (tg : TAG) (wfuel : Nat)
    (hp : pipeline_ok tg) (hs : sync_ok tg.ta) :
    ∀ (fuel : Nat) (st : CheckerSt),
      diag_sub tg st.relation → cache_ok tg st.cache → rel_bounded tg st.relation →
      diag_sub tg (run_serial false tg tg wfuel fuel st).1.relation ∧
      cache_ok tg (run_serial false tg tg wfuel fuel st).1.cache ∧
      rel_bounded tg (run_serial false tg tg wfuel fuel st).1.relation := by
  intro fuel
  induction fuel with
  | zero => intro st h1 h2 h3; exact ⟨h1, h2, h3⟩
  | succ n ih =>
    intro st h1 h2 h3
    unfold run_serial
    cases hw : st.worklist with
    | nil => exact ⟨h1, h2, h3⟩
    | cons current rest =>
      dsimp only
      rw [if_neg Bool.false_ne_true]
      split
      · exact ih _ h1 h2 h3
      next hmem =>
        have hcur : current ∈ st.relation := not_not.mp hmem
        obtain ⟨hbr, hba⟩ := h3 current hcur
        cases hv : (validate_pair false tg tg current st.relation wfuel st.cache).1 with
        | true =>
          simp only [hv, if_true]
          have hcok := validate_pair_cache_ok tg current st.relation wfuel st.cache hbr hba h2
          split
          · exact ⟨h1, hcok, h3⟩
          · exact ih _ h1 hcok h3
        | false =>
          simp only [hv, Bool.false_eq_true, if_false]
          have hcok := validate_pair_cache_ok tg current st.relation wfuel st.cache hbr hba h2
          have hdiag : diag_sub tg (rel_erase st.relation current) := by
            intro k hk
            refine List.mem_filter.mpr ⟨h1 k hk, decide_eq_true ?_⟩
            intro hEq
            have hdg := (validate_pair_diag tg k st.relation wfuel st.cache hk hp hs h1 h2).1
            rw [hEq] at hdg
            rw [hv] at hdg
            cases hdg
          have hbnd : rel_bounded tg (rel_erase st.relation current) :=
            fun p hp' => h3 p (rel_erase_subset _ _ hp')
          split
          · exact ⟨hdiag, hcok, hbnd⟩
          · exact ih _ hdiag hcok hbnd
theorem seed_relation_diag (g : ZoneGraph) (k : Nat) (hk : k < g.states.length) :
    (⟨(k : Int), (k : Int)⟩ : PairKey) ∈ seed_relation g g :=
  (seed_relation_mem g g _).mpr
    ⟨k, hk, k, hk, ⟨rfl, Or.inr (dbm_relation_refl _ _)⟩, rfl⟩

theorem seed_relation_bounded (g : ZoneGraph) (p : PairKey)
    (hp : p ∈ seed_relation g g) :
    p.r.toNat < g.states.length ∧ p.a.toNat < g.states.length := by
  obtain ⟨i, hi, j, hj, _, rfl⟩ := (seed_relation_mem g g p).mp hp
  simp only [Int.toNat_natCast]
  exact ⟨hi, hj⟩

/-- C6: for every timed automaton whose zone graph is non-empty, whose stored
zone states all admit a consistent delay pipeline (invariants, delay,
re-applied invariants non-empty — true of the graphs the construction
produces, since stored zones satisfy their location's invariants), whose
synchronised transitions carry a direction flag (as `add_synchronization`
guarantees), and whose serial worklist loop terminates within the given fuel,
the self-check `check_rtwbs_equivalence(ta, ta)` returns true: the diagonal
pairs are all seeded and never leave the relation, because a diagonal pair
re-validates successfully — each weak move is matched by itself, the timing
rule is reflexive, and the supporting successor pair is again diagonal. -/
theorem check_equivalence_reflexive (ta : TimedAutomaton)
    (nthreads gfuel wfuel tfuel : Nat)
    (hne : (build_graph ta gfuel).states ≠ [])
    (hp : pipeline_ok ⟨ta, build_graph ta gfuel⟩)
    (hs : sync_ok ta)
    (hrun : (run_serial false ⟨ta, build_graph ta gfuel⟩ ⟨ta, build_graph ta gfuel⟩ wfuel
      tfuel ⟨seed_relation (build_graph ta gfuel) (build_graph ta gfuel),
        seed_relation (build_graph ta gfuel) (build_graph ta gfuel), [], []⟩).2 = true) :
    check_rtwbs_equivalence false ta ta false nthreads gfuel wfuel tfuel = some true := by
  unfold check_rtwbs_equivalence
  rw [if_neg Bool.false_ne_true]
  dsimp only
  have hnf : (build_graph ta gfuel).states.isEmpty = false := by
    rw [List.isEmpty_eq_false]
    exact hne
  simp only [hnf, Bool.or_self, Bool.false_eq_true, if_false]
  have hn : 0 < (build_graph ta gfuel).states.length := by
    cases hgs : (build_graph ta gfuel).states with
    | nil => exact absurd hgs hne
    | cons a b => simp
  have hseed0 : (⟨(0 : Int), (0 : Int)⟩ : PairKey) ∈
      seed_relation (build_graph ta gfuel) (build_graph ta gfuel) := by
    have h := seed_relation_diag (build_graph ta gfuel) 0 hn
    simpa using h
  have hsne : (seed_relation (build_graph ta gfuel) (build_graph ta gfuel)).isEmpty =
      false := by
    cases hsl : seed_relation (build_graph ta gfuel) (build_graph ta gfuel) with
    | nil =>
      rw [hsl] at hseed0
      simp at hseed0
    | cons a b => rfl
  simp only [hsne, Bool.false_eq_true, if_false]
  simp only [hrun, if_true]
  have hinv := run_serial_diag ⟨ta, build_graph ta gfuel⟩ wfuel hp hs tfuel
    ⟨seed_relation (build_graph ta gfuel) (build_graph ta gfuel),
      seed_relation (build_graph ta gfuel) (build_graph ta gfuel), [], []⟩
    (fun k hk => seed_relation_diag (build_graph ta gfuel) k hk)
    (fun e he => absurd he (List.not_mem_nil e))
    (fun p hp' => seed_relation_bounded (build_graph ta gfuel) p hp')
  have h00 := hinv.1 0 hn
  simp only [Nat.cast_zero] at h00
  rw [decide_eq_true h00]

/-- Witness for the C6 theorem: the one-state automaton `ta_one` checked
against itself. -/
theorem check_equivalence_reflexive_witness :
    ((build_graph ta_one 5).states ≠ [] ∧ pipeline_ok ⟨ta_one, build_graph ta_one 5⟩ ∧
      sync_ok ta_one) ∧
    check_rtwbs_equivalence false ta_one ta_one false 1 5 5 5 = some true :=
  ⟨⟨by decide, by decide, by decide⟩,
   check_equivalence_reflexive ta_one 1 5 5 5 (by decide) (by decide) (by decide) (by decide)⟩

end RTWBS
